import Mathlib

/-!
# The VM bytecode module target: model and properties

A shallow embedding of `iree/compiler/Dialect/Types.h` and
`iree/compiler/Dialect/VM/Target/Bytecode/BytecodeModuleTarget.cpp`.

Conventions of the embedding.

* `std::vector<T>` is `List T`; a default-constructed (null) op handle in a
  resized vector is `none`.
* A FlatBuffers `Offset<T>` is modelled by the value it refers to; a table is a
  structure whose optional fields are `Option`s, set by the `add_*` functions of
  its builder, so "absent" (`none`) and "present and empty" (`some []`) differ.
* A function of the source that can stop without returning a value
  (`llvm_unreachable`, an out-of-range `operator[]`, a call through a null op
  handle) or return the null offset `{}` is a function into `Except Stop`.
* Counts, sizes and offsets are natural numbers: each is the length of a list or
  a sum of such lengths.  The one arithmetic expression of the source that is
  not of this shape, the subtraction in `typeToKindEnum`, is taken modulo `2^32 = 4294967296`.
* Code the translation unit calls but does not define (the constant encoder, the
  bytecode encoder, the MLIR conversion and pass drivers, the analyses, the
  printers) and the constant `Type::FIRST_IREE_TYPE` are the fields of `Env`.
* Where a property depends on what the conversion driver or the pass manager
  does, it is stated for an `Env` whose field is the model of that driver
  written from the spec (`applyFullConversion`, `runPassPipeline`).
-/

set_option autoImplicit false

namespace iree_compiler

/-! ## Types and type kinds (`Types.h`) -/

/-- The enumerators of `IREE::TypeKind::Kind`, `IREE::HAL::TypeKind::Kind` and
`IREE::SEQ::TypeKind::Kind`, relative to the base `Type::FIRST_IREE_TYPE`. -/
structure KindBase where
  /-- The value of `Type::FIRST_IREE_TYPE`. -/
  FIRST_IREE_TYPE : Nat
deriving DecidableEq, Repr

namespace KindBase

def RefPtr (b : KindBase) : Nat := b.FIRST_IREE_TYPE + 60
def OpaqueRefObject (b : KindBase) : Nat := b.RefPtr + 1
def ConstBuffer (b : KindBase) : Nat := b.OpaqueRefObject + 1
def FIRST_HAL_TYPE (b : KindBase) : Nat := b.FIRST_IREE_TYPE + 20
def FIRST_SEQ_TYPE (b : KindBase) : Nat := b.FIRST_IREE_TYPE + 40

def HAL_Allocator (b : KindBase) : Nat := b.FIRST_HAL_TYPE
def HAL_Buffer (b : KindBase) : Nat := b.HAL_Allocator + 1
def HAL_BufferView (b : KindBase) : Nat := b.HAL_Buffer + 1
def HAL_CommandBuffer (b : KindBase) : Nat := b.HAL_BufferView + 1
def HAL_Device (b : KindBase) : Nat := b.HAL_CommandBuffer + 1
def HAL_Event (b : KindBase) : Nat := b.HAL_Device + 1
def HAL_Executable (b : KindBase) : Nat := b.HAL_Event + 1
def HAL_ExecutableCache (b : KindBase) : Nat := b.HAL_Executable + 1
def HAL_Fence (b : KindBase) : Nat := b.HAL_ExecutableCache + 1
def HAL_Semaphore (b : KindBase) : Nat := b.HAL_Fence + 1

def SEQ_Device (b : KindBase) : Nat := b.FIRST_SEQ_TYPE
def SEQ_Policy (b : KindBase) : Nat := b.SEQ_Device + 1
def SEQ_Resource (b : KindBase) : Nat := b.SEQ_Policy + 1
def SEQ_Timeline (b : KindBase) : Nat := b.SEQ_Resource + 1

end KindBase

/-- A `RefObjectType` value.  Its storage is the plain `TypeStorage`
(`using ImplType = TypeStorage`), so within one context it is its kind. -/
structure RefObjectType where
  kind : Nat
deriving DecidableEq, Repr

/-- The function `RefObjectType::classof`, on the kind of the type tested. -/
def RefObjectType.classof (b : KindBase) (kind : Nat) : Bool :=
  if kind = b.OpaqueRefObject then true
  else if kind = b.ConstBuffer then true
  else if kind = b.HAL_Buffer then true
  else if kind = b.HAL_CommandBuffer then true
  else if kind = b.HAL_Device then true
  else if kind = b.HAL_Event then true
  else if kind = b.HAL_Executable then true
  else if kind = b.HAL_Fence then true
  else if kind = b.HAL_Semaphore then true
  else if kind = b.SEQ_Device then true
  else if kind = b.SEQ_Policy then true
  else if kind = b.SEQ_Resource then true
  else if kind = b.SEQ_Timeline then true
  else false

/-- The MLIR types the target tells apart: an integer of some width, a
`RefPtrType` around an object type, or any other type. -/
inductive MlirType where
  | integer (width : Nat)
  | refPtr (objectType : RefObjectType)
  | other (kind : Nat)
deriving DecidableEq, Repr

/-- The method `Type::isInteger(width)`. -/
def MlirType.isInteger : MlirType → Nat → Bool
  | .integer w, width => w == width
  | _, _ => false

/-- A `FunctionType`: `getInput(i)` is `inputs[i]`, `getResult(i)` is `results[i]`. -/
structure FunctionType where
  inputs : List MlirType
  results : List MlirType
deriving DecidableEq, Repr

/-! ## Ways a function stops without a value -/

/-- How a call ends when it does not yield a value. -/
inductive Stop where
  /-- No return at all: `llvm_unreachable`, an out-of-range index, a null op. -/
  | undefined
  /-- The null offset `{}` was returned. -/
  | returnedNull
deriving DecidableEq, Repr

/-! ## Signatures (`BytecodeModuleTarget.cpp`, lines 130-184) -/

/-- Both overloads of `createOptionalVector`: `None` if `contents` is empty. -/
def createOptionalVector {α : Type} (contents : List α) : Option (List α) :=
  if contents.isEmpty then none else some contents

/-- Subtraction of `unsigned` values. -/
def sub_uint32 (a c : Nat) : Nat :=
  (a % 4294967296 + (4294967296 - c % 4294967296)) % 4294967296

/-- The function `typeToKindEnum`. -/
def typeToKindEnum (b : KindBase) (type : MlirType) : Except Stop Nat :=
  if type.isInteger 32 then
    pure 1
  else
    match type with
    | .refPtr refPtrType => pure (sub_uint32 refPtrType.kind b.FIRST_IREE_TYPE)
    | _ => throw Stop.undefined

/-- The table `iree::vm::FunctionSignatureDef`. -/
structure FunctionSignatureDef where
  argument_types : Option (List Nat) := none
  result_types : Option (List Nat) := none
deriving DecidableEq, Repr

/-- The function `makeFunctionSignatureDef`. -/
def makeFunctionSignatureDef (b : KindBase) (functionType : FunctionType) :
    Except Stop FunctionSignatureDef := do
  let argumentTypes ← functionType.inputs.mapM (typeToKindEnum b)
  let argumentTypesOffset := createOptionalVector argumentTypes
  let resultTypes ← functionType.results.mapM (typeToKindEnum b)
  let resultTypesOffset := createOptionalVector resultTypes
  let fsd : FunctionSignatureDef := {}
  let fsd := match argumentTypesOffset with
    | some v => { fsd with argument_types := some v }
    | none => fsd
  let fsd := match resultTypesOffset with
    | some v => { fsd with result_types := some v }
    | none => fsd
  pure fsd

/-! ## The module (`IREE::VM::ModuleOp`) as the target reads it -/

/-- A byte (`uint8_t`). -/
abbrev Byte := Nat

/-- A source location; used for diagnostics only. -/
structure Location where
  id : Nat
deriving DecidableEq, Repr

/-- The constant held by a `vm.rodata` op; read only by the constant encoder. -/
structure ElementsAttr where
  id : Nat
deriving DecidableEq, Repr

/-- An operation of a function body, by its full name (for example `vm.trace`). -/
structure Operation where
  name : String
deriving DecidableEq, Repr

/-- An `IREE::VM::FuncOp`.  `ordinal` is the attribute written by the ordinal
allocation pass, which `canonicalizeModule` runs before the builder. -/
structure FuncOp where
  name : String
  type : FunctionType
  isExternal : Bool
  ordinal : Nat
  body : List Operation
deriving DecidableEq, Repr

/-- The method `FuncOp::empty()`. -/
def FuncOp.empty (funcOp : FuncOp) : Bool := funcOp.body.isEmpty

/-- An `IREE::VM::ExportOp`. -/
structure ExportOp where
  export_name : String
  function_ref : String
  ordinal : Nat
deriving DecidableEq, Repr

/-- An `IREE::VM::RodataOp`. -/
structure RodataOp where
  name : String
  loc : Location
  value : ElementsAttr
  ordinal : Nat
deriving DecidableEq, Repr

/-- One operation of the module block, by the `dyn_cast`/`isa` tests applied. -/
inductive TopLevelOp where
  | func (funcOp : FuncOp)
  | exportOp (exportOp : ExportOp)
  | globalI32 (name : String)
  | globalRef (name : String)
  | rodata (rodataOp : RodataOp)
  | other (op : Operation)
deriving DecidableEq, Repr

/-- An `IREE::VM::ModuleOp`: its `sym_name` and `getBlock().getOperations()`. -/
structure ModuleOp where
  sym_name : String
  ops : List TopLevelOp
deriving DecidableEq, Repr

/-- The symbol name of a top-level op, if it defines a symbol. -/
def TopLevelOp.symbolName : TopLevelOp → Option String
  | .func f => some f.name
  | .globalI32 n => some n
  | .globalRef n => some n
  | .rodata r => some r.name
  | .exportOp _ => none
  | .other _ => none

/-- A `SymbolTable` built over a module. -/
structure SymbolTable where
  ops : List TopLevelOp
deriving DecidableEq, Repr

/-- The call `symbolTable.lookup<IREE::VM::FuncOp>(name)`: the op of that symbol
name, if it is a function; otherwise the null op.  Symbol names are unique in a
verified module, so the first op of that name is the only one. -/
def SymbolTable.lookupFuncOp (symbolTable : SymbolTable) (name : String) : Option FuncOp :=
  match symbolTable.ops.find? (fun op => op.symbolName == some name) with
  | some (.func f) => some f
  | _ => none

/-! ## Symbol counts (lines 48-87) -/

/-- The struct `ModuleCounts`. -/
structure ModuleCounts where
  importFuncs : Nat := 0
  exportFuncs : Nat := 0
  internalFuncs : Nat := 0
  globalBytes : Nat := 0
  globalRefs : Nat := 0
  rodatas : Nat := 0
  rwdatas : Nat := 0
deriving DecidableEq, Repr

/-- The body of the loop of `computeModuleSymbolCounts`. -/
def countOp (counts : ModuleCounts) (op : TopLevelOp) : ModuleCounts :=
  match op with
  | .func funcOp =>
    if funcOp.isExternal then { counts with importFuncs := counts.importFuncs + 1 }
    else { counts with internalFuncs := counts.internalFuncs + 1 }
  | .exportOp _ => { counts with exportFuncs := counts.exportFuncs + 1 }
  | .globalI32 _ => { counts with globalBytes := counts.globalBytes + 1 }
  | .globalRef _ => { counts with globalRefs := counts.globalRefs + 1 }
  | .rodata _ => { counts with rodatas := counts.rodatas + 1 }
  | .other _ => counts

/-- The function `computeModuleSymbolCounts`. -/
def computeModuleSymbolCounts (moduleOp : ModuleOp) : ModuleCounts :=
  moduleOp.ops.foldl countOp {}

/-! ## Collecting the structural ops (lines 199-223) -/

/-- The four vectors filled by the collection step of `buildFlatBufferModule`. -/
structure StructuralOps where
  importFuncOps : List (Option FuncOp)
  exportFuncOps : List (Option ExportOp)
  internalFuncOps : List (Option FuncOp)
  rodataOps : List (Option RodataOp)
deriving DecidableEq, Repr

/-- The assignment `v[i] = x` on a `std::vector`: defined only for `i < v.size()`. -/
def storeAt {α : Type} (v : List (Option α)) (i : Nat) (x : α) :
    Except Stop (List (Option α)) :=
  if i < v.length then pure (v.set i (some x)) else throw Stop.undefined

/-- The four `resize` calls (lines 207-210). -/
def resizeStructuralOps (symbolCounts : ModuleCounts) : StructuralOps :=
  { importFuncOps := List.replicate symbolCounts.importFuncs none
    exportFuncOps := List.replicate symbolCounts.exportFuncs none
    internalFuncOps := List.replicate symbolCounts.internalFuncs none
    rodataOps := List.replicate symbolCounts.rodatas none }

/-- The body of the collection loop (lines 212-222). -/
def collectOp (s : StructuralOps) (op : TopLevelOp) : Except Stop StructuralOps :=
  match op with
  | .func funcOp =>
    if funcOp.isExternal then do
      let v ← storeAt s.importFuncOps funcOp.ordinal funcOp
      pure { s with importFuncOps := v }
    else do
      let v ← storeAt s.internalFuncOps funcOp.ordinal funcOp
      pure { s with internalFuncOps := v }
  | .exportOp exportOp => do
    let v ← storeAt s.exportFuncOps exportOp.ordinal exportOp
    pure { s with exportFuncOps := v }
  | .rodata rodataOp => do
    let v ← storeAt s.rodataOps rodataOp.ordinal rodataOp
    pure { s with rodataOps := v }
  | .globalI32 _ => pure s
  | .globalRef _ => pure s
  | .other _ => pure s

/-- The collection step of `buildFlatBufferModule` (lines 203-223). -/
def collectStructuralOps (symbolCounts : ModuleCounts) (moduleOp : ModuleOp) :
    Except Stop StructuralOps :=
  moduleOp.ops.foldlM collectOp (resizeStructuralOps symbolCounts)

/-! ## Tables of the container (`bytecode_module_def`) -/

/-- The result of `BytecodeEncoder::encodeFunction`. -/
structure EncodedFunction where
  bytecodeData : List Byte
  i32RegisterCount : Nat
  refRegisterCount : Nat
deriving DecidableEq, Repr

/-- The struct `iree::vm::FunctionDescriptor`. -/
structure FunctionDescriptor where
  bytecode_offset : Nat
  bytecode_length : Nat
  i32_register_count : Nat
  ref_register_count : Nat
deriving DecidableEq, Repr

/-- The table `iree::vm::RodataSegmentDef`. -/
structure RodataSegmentDef where
  data : List Byte
deriving DecidableEq, Repr

/-- The table `iree::vm::RwdataSegmentDef`; the target never builds one. -/
structure RwdataSegmentDef where
  data : List Byte
deriving DecidableEq, Repr

/-- The table `iree::vm::ImportFunctionDef`. -/
structure ImportFunctionDef where
  full_name : String
  signature : FunctionSignatureDef
deriving DecidableEq, Repr

/-- The table `iree::vm::ExportFunctionDef`. -/
structure ExportFunctionDef where
  local_name : String
  signature : FunctionSignatureDef
  internal_ordinal : Nat
deriving DecidableEq, Repr

/-- The table `iree::vm::InternalFunctionDef`. -/
structure InternalFunctionDef where
  local_name : String
  signature : FunctionSignatureDef
deriving DecidableEq, Repr

/-- The table `iree::vm::ModuleStateDef`. -/
structure ModuleStateDef where
  global_bytes_capacity : Nat
  global_ref_count : Nat
deriving DecidableEq, Repr

/-- The table `iree::vm::BytecodeModuleDef`; a field is `none` until the
matching `add_*` call of `BytecodeModuleDefBuilder`. -/
structure BytecodeModuleDef where
  name : Option String := none
  imported_functions : Option (List ImportFunctionDef) := none
  exported_functions : Option (List ExportFunctionDef) := none
  internal_functions : Option (List InternalFunctionDef) := none
  module_state : Option ModuleStateDef := none
  rwdata_segments : Option (List RwdataSegmentDef) := none
  rodata_segments : Option (List RodataSegmentDef) := none
  function_descriptors : Option (List FunctionDescriptor) := none
  bytecode_data : Option (List Byte) := none
deriving DecidableEq, Repr

/-! ## Options and collaborators -/

/-- The enum `BytecodeOutputFormat`. -/
inductive BytecodeOutputFormat where
  | kFlatBufferBinary
  | kFlatBufferText
  | kMlirText
deriving DecidableEq, Repr

/-- The struct `BytecodeTargetOptions`. -/
structure BytecodeTargetOptions where
  outputFormat : BytecodeOutputFormat
  optimize : Bool
  stripDebugOps : Bool
  stripSymbols : Bool
deriving DecidableEq, Repr

/-- The passes `canonicalizeModule` can add to its pass manager. -/
inductive Pass where
  | inliner
  | cse
  | canonicalizer
  | ordinalAllocation
deriving DecidableEq, Repr

/-- The `ConversionTarget` set up by `canonicalizeModule`. -/
structure ConversionTarget where
  legalDialects : List String
  illegalOps : List String
deriving DecidableEq, Repr

/-- What the translation unit uses and does not define. -/
structure Env where
  /-- The constant `Type::FIRST_IREE_TYPE`. -/
  kinds : KindBase
  /-- The function `serializeConstant`; `none` is the null offset. -/
  serializeConstant : Location → ElementsAttr → Option (List Byte)
  /-- The function `BytecodeEncoder::encodeFunction`; `none` is `llvm::None`. -/
  encodeFunction : FuncOp → SymbolTable → Option EncodedFunction
  /-- The function `applyFullConversion` with an empty pattern list; `none` is failure. -/
  applyFullConversion : ConversionTarget → ModuleOp → Option ModuleOp
  /-- The call `passManager.run` with the passes added, in order; `none` is failure. -/
  runPasses : List Pass → ModuleOp → Option ModuleOp
  /-- The function `ValueLiveness::annotateIR`; `none` is failure. -/
  annotateValueLiveness : FuncOp → Option FuncOp
  /-- The function `RegisterAllocation::annotateIR`; `none` is failure. -/
  annotateRegisterAllocation : FuncOp → Option FuncOp
  /-- The bytes written by `Operation::print` for the module. -/
  printModule : ModuleOp → List Byte
  /-- The buffer left in the builder by `FinishBytecodeModuleDefBuffer`. -/
  finishBuffer : BytecodeModuleDef → List Byte
  /-- The string built by `IterateFlatBuffer` with a `ToStringVisitor`. -/
  flatBufferToString : List Byte → List Byte

/-! ## The builder (lines 196-352) -/

/-- The body of the rodata serialization loop (lines 230-238). -/
def serializeRodataOp (env : Env) (slot : Option RodataOp) : Except Stop (List Byte) :=
  match slot with
  | none => throw Stop.undefined
  | some rodataOp =>
    match env.serializeConstant rodataOp.loc rodataOp.value with
    | none => throw Stop.returnedNull
    | some dataOffset => pure dataOffset

/-- The locals of the function-encoding loop (lines 241-245). -/
structure EncodeState where
  bytecodeDataParts : List (List Byte) := []
  functionDescriptors : List FunctionDescriptor := []
  totalBytecodeLength : Nat := 0
deriving DecidableEq, Repr

/-- The body of the function-encoding loop (lines 246-257). -/
def encodeFuncOp (env : Env) (symbolTable : SymbolTable) (st : EncodeState)
    (slot : Option FuncOp) : Except Stop EncodeState :=
  match slot with
  | none => throw Stop.undefined
  | some funcOp =>
    match env.encodeFunction funcOp symbolTable with
    | none => throw Stop.returnedNull
    | some encodedFunction =>
      pure
        { functionDescriptors := st.functionDescriptors ++
            [{ bytecode_offset := st.totalBytecodeLength
               bytecode_length := encodedFunction.bytecodeData.length
               i32_register_count := encodedFunction.i32RegisterCount
               ref_register_count := encodedFunction.refRegisterCount }]
          totalBytecodeLength := st.totalBytecodeLength + encodedFunction.bytecodeData.length
          bytecodeDataParts := st.bytecodeDataParts ++ [encodedFunction.bytecodeData] }

/-- The call `fbb.CreateUninitializedVector<uint8_t>(len, &ptr)`: `len` bytes of
unspecified content, for which `0` stands. -/
def createUninitializedVector (len : Nat) : List Byte := List.replicate len 0

/-- The call `std::memcpy(dst + offset, src.data(), src.size())` into a buffer
of `dst.length` bytes. -/
def memcpy (dst : List Byte) (offset : Nat) (src : List Byte) : Except Stop (List Byte) :=
  if offset + src.length ≤ dst.length then
    pure (dst.take offset ++ src ++ dst.drop (offset + src.length))
  else throw Stop.undefined

/-- The locals of the merge loop (lines 259-262). -/
structure MergeState where
  bytecodeData : List Byte
  currentBytecodeOffset : Nat
deriving DecidableEq, Repr

/-- The body of the merge loop (lines 263-269). -/
def mergePart (bytecodeDataParts : List (List Byte)) (st : MergeState) (ordinal : Nat) :
    Except Stop MergeState :=
  match bytecodeDataParts[ordinal]? with
  | none => throw Stop.undefined
  | some data => do
    let buffer ← memcpy st.bytecodeData st.currentBytecodeOffset data
    pure { bytecodeData := buffer
           currentBytecodeOffset := st.currentBytecodeOffset + data.length }

/-- The body of the import loop (lines 282-289). -/
def makeImportFunctionDef (env : Env) (slot : Option FuncOp) : Except Stop ImportFunctionDef :=
  match slot with
  | none => throw Stop.undefined
  | some importOp => do
    let signatureOffset ← makeFunctionSignatureDef env.kinds importOp.type
    pure { full_name := importOp.name, signature := signatureOffset }

/-- The body of the export loop (lines 292-301). -/
def makeExportFunctionDef (env : Env) (symbolTable : SymbolTable) (slot : Option ExportOp) :
    Except Stop ExportFunctionDef :=
  match slot with
  | none => throw Stop.undefined
  | some exportOp =>
    match symbolTable.lookupFuncOp exportOp.function_ref with
    | none => throw Stop.undefined
    | some funcOp => do
      let signatureOffset ← makeFunctionSignatureDef env.kinds funcOp.type
      pure { local_name := exportOp.export_name
             signature := signatureOffset
             internal_ordinal := funcOp.ordinal }

/-- The body of the internal-function loop (lines 305-312). -/
def makeInternalFunctionDef (env : Env) (slot : Option FuncOp) :
    Except Stop InternalFunctionDef :=
  match slot with
  | none => throw Stop.undefined
  | some funcOp => do
    let signatureOffset ← makeFunctionSignatureDef env.kinds funcOp.type
    pure { local_name := funcOp.name, signature := signatureOffset }

/-- The end of `buildFlatBufferModule` (lines 315-351): the optional vectors,
the module state, and the calls on `BytecodeModuleDefBuilder`. -/
def finishModuleDef (moduleOp : ModuleOp) (symbolCounts : ModuleCounts)
    (functionDescriptors : List FunctionDescriptor)
    (rodataSegmentOffsets : List RodataSegmentDef)
    (rwdataSegmentOffsets : List RwdataSegmentDef)
    (internalFuncOffsets : List InternalFunctionDef)
    (exportFuncOffsets : List ExportFunctionDef)
    (importFuncOffsets : List ImportFunctionDef)
    (bytecodeDataOffset : List Byte) : BytecodeModuleDef :=
  let functionDescriptorsOffset := functionDescriptors
  let rodataSegmentsOffset := createOptionalVector rodataSegmentOffsets
  let rwdataSegmentsOffset := createOptionalVector rwdataSegmentOffsets
  let internalFuncsOffset := internalFuncOffsets
  let exportFuncsOffset := exportFuncOffsets
  let importFuncsOffset := createOptionalVector importFuncOffsets
  let moduleStateDef : Option ModuleStateDef :=
    if symbolCounts.globalBytes ≠ 0 ∨ symbolCounts.globalRefs ≠ 0 then
      some { global_bytes_capacity := symbolCounts.globalBytes
             global_ref_count := symbolCounts.globalRefs }
    else none
  let nameOffset := moduleOp.sym_name
  let bmd : BytecodeModuleDef := {}
  let bmd := { bmd with name := some nameOffset }
  let bmd := match importFuncsOffset with
    | some v => { bmd with imported_functions := some v }
    | none => bmd
  let bmd := { bmd with exported_functions := some exportFuncsOffset }
  let bmd := { bmd with internal_functions := some internalFuncsOffset }
  let bmd := match moduleStateDef with
    | some v => { bmd with module_state := some v }
    | none => bmd
  let bmd := match rwdataSegmentsOffset with
    | some v => { bmd with rwdata_segments := some v }
    | none => bmd
  let bmd := match rodataSegmentsOffset with
    | some v => { bmd with rodata_segments := some v }
    | none => bmd
  let bmd := { bmd with function_descriptors := some functionDescriptorsOffset }
  let bmd := { bmd with bytecode_data := some bytecodeDataOffset }
  bmd

/-- The internal-function table loop with its guard (lines 302-313). -/
def makeInternalFunctionDefs (env : Env) (targetOptions : BytecodeTargetOptions)
    (internalFuncOps : List (Option FuncOp)) : Except Stop (List InternalFunctionDef) :=
  if !targetOptions.stripSymbols then
    internalFuncOps.mapM (makeInternalFunctionDef env)
  else pure []

/-- The function `buildFlatBufferModule`.  `Except.error Stop.returnedNull` is
the null offset returned at lines 235 and 250. -/
def buildFlatBufferModule (env : Env) (targetOptions : BytecodeTargetOptions)
    (moduleOp : ModuleOp) : Except Stop BytecodeModuleDef := do
  let symbolTable : SymbolTable := { ops := moduleOp.ops }
  let symbolCounts := computeModuleSymbolCounts moduleOp
  -- Find all structural ops in the module.
  let ops ← collectStructuralOps symbolCounts moduleOp
  -- Serialize read-only data first.
  let rodataContentOffsets ← ops.rodataOps.mapM (serializeRodataOp env)
  -- Serialize function bytecode one at a time and then merge at the end.
  let enc ← ops.internalFuncOps.foldlM (encodeFuncOp env symbolTable) {}
  let merged ← (List.range ops.internalFuncOps.length).foldlM
    (mergePart enc.bytecodeDataParts)
    { bytecodeData := createUninitializedVector enc.totalBytecodeLength
      currentBytecodeOffset := 0 }
  -- Serialize metadata that should be near the front of the file.
  let rodataSegmentOffsets : List RodataSegmentDef :=
    rodataContentOffsets.map (fun rodataContentOffset => { data := rodataContentOffset })
  let rwdataSegmentOffsets : List RwdataSegmentDef := []
  let importFuncOffsets ← ops.importFuncOps.mapM (makeImportFunctionDef env)
  let exportFuncOffsets ← ops.exportFuncOps.mapM (makeExportFunctionDef env symbolTable)
  let internalFuncOffsets ← makeInternalFunctionDefs env targetOptions ops.internalFuncOps
  pure (finishModuleDef moduleOp symbolCounts enc.functionDescriptors rodataSegmentOffsets
    rwdataSegmentOffsets internalFuncOffsets exportFuncOffsets importFuncOffsets
    merged.bytecodeData)

/-! ## Canonicalization and the driver (lines 89-128 and 354-413) -/

/-- The type `LogicalResult`. -/
inductive LogicalResult where
  | success
  | failure
deriving DecidableEq, Repr

/-- The function `canonicalizeModule`; `none` is `failure()`, `some m` is
`success()` with the module left as `m`.  The dialect and the four debug ops
(`TraceOp`, `PrintOp`, `BreakOp`, `CondBreakOp`) are given by their names. -/
def canonicalizeModule (env : Env) (targetOptions : BytecodeTargetOptions)
    (moduleOp : ModuleOp) : Option ModuleOp :=
  let target : ConversionTarget := { legalDialects := ["vm"], illegalOps := [] }
  let target :=
    if targetOptions.stripDebugOps then
      { target with
        illegalOps := target.illegalOps ++ ["vm.trace", "vm.print", "vm.break", "vm.cond_break"] }
    else target
  match env.applyFullConversion target moduleOp with
  | none => none
  | some moduleOp =>
    let modulePasses : List Pass := []
    let modulePasses :=
      if targetOptions.optimize then
        modulePasses ++ [Pass.inliner, Pass.cse, Pass.canonicalizer]
      else modulePasses
    let modulePasses := modulePasses ++ [Pass.ordinalAllocation]
    match env.runPasses modulePasses moduleOp with
    | none => none
    | some moduleOp => some moduleOp

/-- The body of the annotation loop (lines 364-372) for one op of the block. -/
def annotateOp (env : Env) (op : TopLevelOp) : Option TopLevelOp :=
  match op with
  | .func funcOp =>
    if !funcOp.empty then
      match env.annotateValueLiveness funcOp with
      | none => none
      | some funcOp =>
        match env.annotateRegisterAllocation funcOp with
        | none => none
        | some funcOp => some (.func funcOp)
    else some (.func funcOp)
  | op => some op

/-- The function `translateModuleToBytecode`, with the stream `output` passed
in and returned. -/
def translateModuleToBytecode (env : Env) (targetOptions : BytecodeTargetOptions)
    (moduleOp : ModuleOp) (output : List Byte) : Except Stop (LogicalResult × List Byte) :=
  match canonicalizeModule env targetOptions moduleOp with
  | none => pure (LogicalResult.failure, output)
  | some moduleOp =>
    if targetOptions.outputFormat = BytecodeOutputFormat.kMlirText then
      match moduleOp.ops.mapM (annotateOp env) with
      | none => pure (LogicalResult.failure, output)
      | some ops =>
        let moduleOp := { moduleOp with ops := ops }
        let output := output ++ env.printModule moduleOp
        let output := output ++ [10]
        pure (LogicalResult.success, output)
    else
      match buildFlatBufferModule env targetOptions moduleOp with
      | .error Stop.undefined => throw Stop.undefined
      | .error Stop.returnedNull => pure (LogicalResult.failure, output)
      | .ok moduleDef =>
        let flatbufferBytes := env.finishBuffer moduleDef
        match targetOptions.outputFormat with
        | .kFlatBufferBinary => pure (LogicalResult.success, output ++ flatbufferBytes)
        | .kFlatBufferText =>
          pure (LogicalResult.success, output ++ env.flatBufferToString flatbufferBytes ++ [10])
        | .kMlirText => throw Stop.undefined

/-! ## Construction of a `RefPtrType` (`Types.h`, lines 147-181) -/

/-- The function `RefPtrType::verifyConstructionInvariants`, on the kind of
`objectType`.  The second component lists the locations at which
`invalid object type for a ref_ptr` was emitted. -/
def RefPtrType.verifyConstructionInvariants (b : KindBase) (loc : Option Location)
    (objectTypeKind : Nat) : LogicalResult × List Location :=
  if !RefObjectType.classof b objectTypeKind then
    match loc with
    | some l => (LogicalResult.failure, [l])
    | none => (LogicalResult.failure, [])
  else (LogicalResult.success, [])

/-- The function `RefPtrType::getChecked`: `Base::getChecked` runs
`verifyConstructionInvariants` at `location` and, as the comment on lines
158-160 says, returns the null type (`none`) if the object type is not
supported; otherwise it returns the `ref_ptr` around the object type. -/
def RefPtrType.getChecked (b : KindBase) (objectTypeKind : Nat) (location : Location) :
    Option MlirType :=
  match (RefPtrType.verifyConstructionInvariants b (some location) objectTypeKind).1 with
  | .failure => none
  | .success => some (.refPtr { kind := objectTypeKind })

/-! ## The conversion and pass drivers, as the spec describes them -/

/-- The dialect of an operation: the part of its name before the first dot. -/
def Operation.dialect (op : Operation) : String :=
  String.mk (op.name.toList.takeWhile (fun ch => ch != '.'))

/-- Modelled from the spec: the operations the conversion driver, which is not
under `src/`, visits in one operation of the module block: the operation
itself, under the name the VM dialect gives it, and for a function those of
its body. -/
def TopLevelOp.operations : TopLevelOp → List Operation
  | .func funcOp => { name := "vm.func" } :: funcOp.body
  | .exportOp _ => [{ name := "vm.export" }]
  | .globalI32 _ => [{ name := "vm.global.i32" }]
  | .globalRef _ => [{ name := "vm.global.ref" }]
  | .rodata _ => [{ name := "vm.rodata" }]
  | .other op => [op]

/-- Modelled from the spec: the operations the conversion driver, which is not
under `src/`, visits in a module, in block order. -/
def ModuleOp.operations (moduleOp : ModuleOp) : List Operation :=
  moduleOp.ops.flatMap TopLevelOp.operations

/-- Modelled from the spec: the legality test of the conversion driver, which
is not under `src/`.  Section 4.2, step 1: an instruction is allowed when it
belongs to the allowed instruction set (a legal dialect) and is not in the
illegal set. -/
def ConversionTarget.isLegal (target : ConversionTarget) (op : Operation) : Bool :=
  if op.name ∈ target.illegalOps then false
  else decide (op.dialect ∈ target.legalDialects)

/-- Modelled from the spec: the function `applyFullConversion` of the
conversion driver, which is not under `src/`, called with an empty pattern
list.  Section 4.2, step 1: it fails if any disallowed instruction is found;
nothing is rewritten, so on success the module is as it was. -/
def applyFullConversion (target : ConversionTarget) (moduleOp : ModuleOp) : Option ModuleOp :=
  if moduleOp.operations.all target.isLegal then some moduleOp else none

/-- Modelled from the spec: the call `PassManager::run`, which is not under
`src/`.  Section 9: an ordered list of transformations applied to the module
one after the other, each returning a transformed module or a failure, with
short-circuit on failure.  `runPass` is what one pass does. -/
def runPassPipeline (runPass : Pass → ModuleOp → Option ModuleOp) (passes : List Pass)
    (moduleOp : ModuleOp) : Option ModuleOp :=
  passes.foldlM (fun m pass => runPass pass m) moduleOp

/-! ## Predicates used to state the properties -/

/-- The types `typeToKindEnum` has a branch for: `i32` and any `ref_ptr`. -/
def MlirType.isI32OrRefPtr : MlirType → Bool
  | .integer w => w == 32
  | .refPtr _ => true
  | .other _ => false

/-- The types that can reach `typeToKindEnum`: `i32`, and a `ref_ptr` whose
object type passes `RefObjectType::classof`. -/
def MlirType.isEncodable (b : KindBase) : MlirType → Bool
  | .integer w => w == 32
  | .refPtr o => RefObjectType.classof b o.kind
  | .other _ => false

/-- The kind code `typeToKindEnum` returns for a type, `0` where it returns none. -/
def kindCodeOf (b : KindBase) (type : MlirType) : Nat :=
  match typeToKindEnum b type with
  | .ok code => code
  | .error _ => 0

/-- The op as an import function, if it is one. -/
def TopLevelOp.asImportFunc : TopLevelOp → Option FuncOp
  | .func f => if f.isExternal then some f else none
  | _ => none

/-- The op as an internal function, if it is one. -/
def TopLevelOp.asInternalFunc : TopLevelOp → Option FuncOp
  | .func f => if f.isExternal then none else some f
  | _ => none

/-- The op as an export, if it is one. -/
def TopLevelOp.asExport : TopLevelOp → Option ExportOp
  | .exportOp e => some e
  | _ => none

/-- The op as a rodata segment, if it is one. -/
def TopLevelOp.asRodata : TopLevelOp → Option RodataOp
  | .rodata r => some r
  | _ => none

/-- The import functions of a module, in block order. -/
def importFuncsOf (ops : List TopLevelOp) : List FuncOp := ops.filterMap TopLevelOp.asImportFunc

/-- The internal functions of a module, in block order. -/
def internalFuncsOf (ops : List TopLevelOp) : List FuncOp :=
  ops.filterMap TopLevelOp.asInternalFunc

/-- The exports of a module, in block order. -/
def exportsOf (ops : List TopLevelOp) : List ExportOp := ops.filterMap TopLevelOp.asExport

/-- The rodata segments of a module, in block order. -/
def rodatasOf (ops : List TopLevelOp) : List RodataOp := ops.filterMap TopLevelOp.asRodata

/-- The ordinal precondition of `computeModuleSymbolCounts`: in each of the four
ordinal-indexed categories the ordinals are a permutation of `[0, count)`. -/
def OrdinalsContiguous (moduleOp : ModuleOp) : Prop :=
  ((importFuncsOf moduleOp.ops).map (fun f => f.ordinal)).Perm
      (List.range (computeModuleSymbolCounts moduleOp).importFuncs) ∧
  ((internalFuncsOf moduleOp.ops).map (fun f => f.ordinal)).Perm
      (List.range (computeModuleSymbolCounts moduleOp).internalFuncs) ∧
  ((exportsOf moduleOp.ops).map (fun e => e.ordinal)).Perm
      (List.range (computeModuleSymbolCounts moduleOp).exportFuncs) ∧
  ((rodatasOf moduleOp.ops).map (fun r => r.ordinal)).Perm
      (List.range (computeModuleSymbolCounts moduleOp).rodatas)

/-- The stores of the collection loop into one vector: each `x` of `xs`, in
order, at index `ord x`. -/
def storeAll {α : Type} (ord : α → Nat) (v : List (Option α)) (xs : List α) :
    Except Stop (List (Option α)) :=
  xs.foldlM (fun v x => storeAt v (ord x) x) v

/-- The vector after the stores of `storeAll`, when all are in range. -/
def scatter {α : Type} (ord : α → Nat) (v : List (Option α)) (xs : List α) :
    List (Option α) :=
  xs.foldl (fun v x => v.set (ord x) (some x)) v

/-- The vector `table` of `n` slots holds, at each index `i`, the element of
`xs` whose ordinal is `i`: every element is found at its ordinal, and every
slot is filled by an element of `xs` with that ordinal. -/
def TableHolds {α : Type} (ord : α → Nat) (xs : List α) (n : Nat)
    (table : List (Option α)) : Prop :=
  table.length = n ∧
  (∀ x ∈ xs, ord x < n ∧ table[ord x]? = some (some x)) ∧
  (∀ i, i < n → ∃ x ∈ xs, ord x = i ∧ table[i]? = some (some x))

/-- The descriptors of functions encoded as `es`, laid out back to back from
byte `start`. -/
def descriptorsFrom (start : Nat) : List EncodedFunction → List FunctionDescriptor
  | [] => []
  | e :: es =>
    { bytecode_offset := start
      bytecode_length := e.bytecodeData.length
      i32_register_count := e.i32RegisterCount
      ref_register_count := e.refRegisterCount } ::
      descriptorsFrom (start + e.bytecodeData.length) es

/-- The slot holds a function and the bytecode encoder turns it into `e`. -/
def EncodesTo (env : Env) (symbolTable : SymbolTable) (slot : Option FuncOp)
    (e : EncodedFunction) : Prop :=
  ∃ f, slot = some f ∧ env.encodeFunction f symbolTable = some e

/-- A module used to instantiate the properties: the import `host.add`, the
internal functions `main` (ordinal 1) and `helper` (ordinal 0), an export of
`main`, two globals and two rodata segments, stored out of ordinal order. -/
def sampleModule : ModuleOp :=
  { sym_name := "m"
    ops :=
      [ .rodata { name := "r1", loc := { id := 1 }, value := { id := 7 }, ordinal := 1 },
        .func { name := "host.add"
                type := { inputs := [.integer 32, .integer 32], results := [.integer 32] }
                isExternal := true, ordinal := 0, body := [] },
        .func { name := "main", type := { inputs := [], results := [.integer 32] }
                isExternal := false, ordinal := 1
                body := [{ name := "vm.const.i32" }, { name := "vm.call" },
                         { name := "vm.return" }] },
        .globalI32 "g0",
        .func { name := "helper", type := { inputs := [.refPtr { kind := 318 }], results := [] }
                isExternal := false, ordinal := 0
                body := [{ name := "vm.return" }] },
        .exportOp { export_name := "run", function_ref := "main", ordinal := 0 },
        .globalRef "g1",
        .rodata { name := "r0", loc := { id := 0 }, value := { id := 5 }, ordinal := 0 } ] }

/-- Collaborators used to instantiate the properties: a constant is encoded as
three bytes, a function as one byte per operation of its body; conversion and
passes leave the module as it is. -/
def sampleEnv : Env :=
  { kinds := { FIRST_IREE_TYPE := 256 }
    serializeConstant := fun _ value => some [value.id, value.id + 1, value.id + 2]
    encodeFunction := fun funcOp _ =>
      some { bytecodeData := funcOp.body.map (fun op => op.name.length)
             i32RegisterCount := funcOp.type.results.length
             refRegisterCount := 0 }
    applyFullConversion := fun _ m => some m
    runPasses := fun _ m => some m
    annotateValueLiveness := fun f => some f
    annotateRegisterAllocation := fun f => some f
    printModule := fun m => m.sym_name.toList.map Char.toNat
    finishBuffer := fun d => (d.bytecode_data.getD [])
    flatBufferToString := fun bytes => bytes }

/-- Options used to instantiate the properties: binary output, nothing stripped. -/
def sampleOptions : BytecodeTargetOptions :=
  { outputFormat := .kFlatBufferBinary, optimize := false, stripDebugOps := false,
    stripSymbols := false }

/-- The options of `sampleOptions` with `stripSymbols` set. -/
def sampleStripOptions : BytecodeTargetOptions :=
  { outputFormat := .kFlatBufferBinary, optimize := false, stripDebugOps := false,
    stripSymbols := true }

/-- A function type made of `i32` and `ref_ptr` types only. -/
def FunctionType.isEncodable (functionType : FunctionType) : Bool :=
  functionType.inputs.all MlirType.isI32OrRefPtr &&
    functionType.results.all MlirType.isI32OrRefPtr

/-- A module with one internal function that takes an argument of a type that
is neither `i32` nor a `ref_ptr` (kind `3`, as a float type would be). -/
def floatArgModule : ModuleOp :=
  { sym_name := "m"
    ops :=
      [ .func { name := "f", type := { inputs := [.other 3], results := [] }
                isExternal := false, ordinal := 0
                body := [{ name := "vm.return" }] } ] }

/-- The module with no operation. -/
def emptyModule : ModuleOp := { sym_name := "empty", ops := [] }

/-- The collaborators of `sampleEnv`, except that no constant can be encoded. -/
def failingEnv : Env := { sampleEnv with serializeConstant := fun _ _ => none }

/-- The op as an i32 global, if it is one. -/
def TopLevelOp.asGlobalI32 : TopLevelOp → Option String
  | .globalI32 n => some n
  | _ => none

/-- The op as a reference global, if it is one. -/
def TopLevelOp.asGlobalRef : TopLevelOp → Option String
  | .globalRef n => some n
  | _ => none

/-- The i32 globals a module declares, in block order. -/
def globalI32sOf (ops : List TopLevelOp) : List String := ops.filterMap TopLevelOp.asGlobalI32

/-- The reference globals a module declares, in block order. -/
def globalRefsOf (ops : List TopLevelOp) : List String := ops.filterMap TopLevelOp.asGlobalRef

/-- The names of the four debug operations. -/
def debugOpNames : List String := ["vm.trace", "vm.print", "vm.break", "vm.cond_break"]

/-- The collaborators of `sampleEnv`, with the conversion driver of the spec. -/
def checkingEnv : Env := { sampleEnv with applyFullConversion := applyFullConversion }

/-- The options of `sampleOptions` with `stripDebugOps` set. -/
def stripDebugOptions : BytecodeTargetOptions :=
  { outputFormat := .kFlatBufferBinary, optimize := false, stripDebugOps := true,
    stripSymbols := false }

/-- A module with one internal function whose body holds a trace operation. -/
def traceModule : ModuleOp :=
  { sym_name := "traced"
    ops :=
      [ .func { name := "f", type := { inputs := [], results := [] }
                isExternal := false, ordinal := 0
                body := [{ name := "vm.trace" }, { name := "vm.return" }] } ] }

/-- The module with each function body replaced by its image under `f`. -/
def ModuleOp.mapBodies (f : List Operation → List Operation) (moduleOp : ModuleOp) : ModuleOp :=
  { moduleOp with
    ops := moduleOp.ops.map (fun op =>
      match op with
      | .func funcOp => .func { funcOp with body := f funcOp.body }
      | op => op) }

/-- Passes used to instantiate the properties: the inliner and the ordinal
allocation leave the module as it is, common-subexpression elimination drops
an operation that repeats an earlier one of the body, and canonicalization
folds `vm.mul.one` into `vm.move`. -/
def samplePass : Pass → ModuleOp → Option ModuleOp
  | .inliner, m => some m
  | .cse, m => some (m.mapBodies List.eraseDups)
  | .canonicalizer, m =>
    some (m.mapBodies (List.map (fun op =>
      if op.name = "vm.mul.one" then { name := "vm.move" } else op)))
  | .ordinalAllocation, m => some m

/-- The collaborators of `sampleEnv`, with the passes of `samplePass` run in order. -/
def pipelineEnv : Env := { sampleEnv with runPasses := runPassPipeline samplePass }

/-- The options of `sampleOptions` with `optimize` set. -/
def optimizeOptions : BytecodeTargetOptions :=
  { outputFormat := .kFlatBufferBinary, optimize := true, stripDebugOps := false,
    stripSymbols := false }

/-- A module with one internal function in which canonicalization creates a
repeated operation. -/
def foldableModule : ModuleOp :=
  { sym_name := "foldable"
    ops :=
      [ .func { name := "f", type := { inputs := [], results := [] }
                isExternal := false, ordinal := 0
                body := [{ name := "vm.move" }, { name := "vm.mul.one" },
                         { name := "vm.return" }] } ] }

/-- The sequence inliner, common-subexpression elimination, canonicalizer. -/
def optimizationPasses : List Pass := [Pass.inliner, Pass.cse, Pass.canonicalizer]

/-! ## Properties of the signature encoding -/

theorem except_bind_ok {ε α β : Type} (a : α) (f : α → Except ε β) :
    (Except.ok a >>= f) = f a := rfl

theorem except_bind_error {ε α β : Type} (e : ε) (f : α → Except ε β) :
    (Except.error e >>= f) = Except.error e := rfl

theorem except_pure {ε α : Type} (a : α) : (pure a : Except ε α) = Except.ok a := rfl

/-- A loop that computes one value per element and appends it succeeds with
the list of those values when every element succeeds. -/
theorem mapM_ok_of_forall {α β : Type} (f : α → Except Stop β) (g : α → β) (l : List α)
    (h : ∀ a ∈ l, f a = .ok (g a)) : l.mapM f = .ok (l.map g) := by
  induction l with
  | nil => rfl
  | cons a l ih =>
    rw [List.mapM_cons, h a (List.mem_cons_self a l),
      ih (fun x hx => h x (List.mem_cons_of_mem a hx))]
    rfl

/-- A successful loop produced, position by position, the value of each element. -/
theorem mapM_ok_forall₂ {α β : Type} (f : α → Except Stop β) (l : List α) (r : List β)
    (h : l.mapM f = .ok r) : List.Forall₂ (fun a y => f a = .ok y) l r := by
  induction l generalizing r with
  | nil =>
    rw [List.mapM_nil] at h
    cases h
    exact List.Forall₂.nil
  | cons a l ih =>
    rw [List.mapM_cons] at h
    cases hfa : f a with
    | error e => rw [hfa] at h; cases h
    | ok y =>
      rw [hfa, except_bind_ok] at h
      cases hl : l.mapM f with
      | error e => rw [hl] at h; cases h
      | ok ys =>
        rw [hl, except_bind_ok] at h
        cases h
        exact List.Forall₂.cons hfa (ih ys hl)


theorem sub_uint32_add (base k : Nat) (hk : k < 4294967296) :
    sub_uint32 (base + k) base = k := by
  unfold sub_uint32
  omega

theorem typeToKindEnum_i32 (b : KindBase) : typeToKindEnum b (.integer 32) = .ok 1 := rfl

theorem typeToKindEnum_refPtr (b : KindBase) (o : RefObjectType) :
    typeToKindEnum b (.refPtr o) = .ok (sub_uint32 o.kind b.FIRST_IREE_TYPE) := rfl

theorem ite_true_eq_true_iff (p : Prop) [Decidable p] (q : Bool) :
    (if p then true else q) = true ↔ p ∨ q = true := by
  by_cases hp : p <;> simp [hp]

/-- The kinds accepted by `RefObjectType::classof`, as a disjunction. -/
theorem classof_iff (b : KindBase) (kind : Nat) :
    RefObjectType.classof b kind = true ↔
      (kind = b.OpaqueRefObject ∨ kind = b.ConstBuffer ∨ kind = b.HAL_Buffer ∨
       kind = b.HAL_CommandBuffer ∨ kind = b.HAL_Device ∨ kind = b.HAL_Event ∨
       kind = b.HAL_Executable ∨ kind = b.HAL_Fence ∨ kind = b.HAL_Semaphore ∨
       kind = b.SEQ_Device ∨ kind = b.SEQ_Policy ∨ kind = b.SEQ_Resource ∨
       kind = b.SEQ_Timeline) := by
  simp only [RefObjectType.classof, ite_true_eq_true_iff, Bool.false_eq_true, or_false]

theorem kind_values (b : KindBase) :
    b.OpaqueRefObject = b.FIRST_IREE_TYPE + 61 ∧ b.ConstBuffer = b.FIRST_IREE_TYPE + 62 ∧
    b.HAL_Allocator = b.FIRST_IREE_TYPE + 20 ∧ b.HAL_Buffer = b.FIRST_IREE_TYPE + 21 ∧
    b.HAL_BufferView = b.FIRST_IREE_TYPE + 22 ∧ b.HAL_CommandBuffer = b.FIRST_IREE_TYPE + 23 ∧
    b.HAL_Device = b.FIRST_IREE_TYPE + 24 ∧ b.HAL_Event = b.FIRST_IREE_TYPE + 25 ∧
    b.HAL_Executable = b.FIRST_IREE_TYPE + 26 ∧ b.HAL_ExecutableCache = b.FIRST_IREE_TYPE + 27 ∧
    b.HAL_Fence = b.FIRST_IREE_TYPE + 28 ∧ b.HAL_Semaphore = b.FIRST_IREE_TYPE + 29 ∧
    b.SEQ_Device = b.FIRST_IREE_TYPE + 40 ∧ b.SEQ_Policy = b.FIRST_IREE_TYPE + 41 ∧
    b.SEQ_Resource = b.FIRST_IREE_TYPE + 42 ∧ b.SEQ_Timeline = b.FIRST_IREE_TYPE + 43 := by
  simp only [KindBase.OpaqueRefObject, KindBase.ConstBuffer, KindBase.RefPtr,
    KindBase.HAL_Buffer, KindBase.HAL_CommandBuffer, KindBase.HAL_Device, KindBase.HAL_Event,
    KindBase.HAL_Executable, KindBase.HAL_Fence, KindBase.HAL_Semaphore,
    KindBase.HAL_ExecutableCache, KindBase.HAL_BufferView, KindBase.HAL_Allocator,
    KindBase.FIRST_HAL_TYPE, KindBase.SEQ_Device, KindBase.SEQ_Policy, KindBase.SEQ_Resource,
    KindBase.SEQ_Timeline, KindBase.FIRST_SEQ_TYPE, and_self]

/-- Every kind accepted by `classof` is `FIRST_IREE_TYPE + k` for one of the
thirteen offsets `k`. -/
theorem classof_offset (b : KindBase) (kind : Nat) (h : RefObjectType.classof b kind = true) :
    ∃ k, kind = b.FIRST_IREE_TYPE + k ∧
      k ∈ [61, 62, 21, 23, 24, 25, 26, 28, 29, 40, 41, 42, 43] := by
  obtain ⟨h1, h2, -, h4, -, h6, h7, h8, h9, -, h11, h12, h13, h14, h15, h16⟩ := kind_values b
  rw [classof_iff, h1, h2, h4, h6, h7, h8, h9, h11, h12, h13, h14, h15, h16] at h
  rcases h with h | h | h | h | h | h | h | h | h | h | h | h | h <;>
    exact ⟨_, h, by simp⟩

theorem typeToKindEnum_of_isI32OrRefPtr (b : KindBase) (t : MlirType)
    (h : t.isI32OrRefPtr = true) : typeToKindEnum b t = .ok (kindCodeOf b t) := by
  cases t with
  | integer w =>
    simp only [MlirType.isI32OrRefPtr, beq_iff_eq] at h
    subst h
    rfl
  | refPtr o => rfl
  | other k => simp [MlirType.isI32OrRefPtr] at h

theorem createOptionalVector_nil {α : Type} : createOptionalVector ([] : List α) = none := rfl

theorem createOptionalVector_of_ne_nil {α : Type} (l : List α) (h : l ≠ []) :
    createOptionalVector l = some l := by
  cases l with
  | nil => exact absurd rfl h
  | cons a l => rfl

/-- On `i32` and `ref_ptr` types `makeFunctionSignatureDef` returns the two
optional vectors of kind codes. -/
theorem makeFunctionSignatureDef_eq (b : KindBase) (functionType : FunctionType)
    (hin : ∀ t ∈ functionType.inputs, t.isI32OrRefPtr = true)
    (hres : ∀ t ∈ functionType.results, t.isI32OrRefPtr = true) :
    makeFunctionSignatureDef b functionType =
      .ok { argument_types := createOptionalVector (functionType.inputs.map (kindCodeOf b))
            result_types := createOptionalVector (functionType.results.map (kindCodeOf b)) } := by
  have h1 := mapM_ok_of_forall (typeToKindEnum b) (kindCodeOf b) functionType.inputs
    (fun t ht => typeToKindEnum_of_isI32OrRefPtr b t (hin t ht))
  have h2 := mapM_ok_of_forall (typeToKindEnum b) (kindCodeOf b) functionType.results
    (fun t ht => typeToKindEnum_of_isI32OrRefPtr b t (hres t ht))
  unfold makeFunctionSignatureDef
  rw [h1, except_bind_ok, h2, except_bind_ok]
  cases createOptionalVector (functionType.inputs.map (kindCodeOf b)) <;>
    cases createOptionalVector (functionType.results.map (kindCodeOf b)) <;> rfl

/-- C7. For a function type whose inputs and results are all `i32` or `ref_ptr`,
`makeFunctionSignatureDef` returns a signature whose `argument_types` is the
list of the kind codes of the inputs (same length, same order) and whose
`result_types` is the list of the kind codes of the results, each list absent
exactly when it is empty; the code of `i32` is `1`. -/
theorem makeFunctionSignatureDef_kind_codes (b : KindBase) (functionType : FunctionType)
    (hin : ∀ t ∈ functionType.inputs, t.isI32OrRefPtr = true)
    (hres : ∀ t ∈ functionType.results, t.isI32OrRefPtr = true) :
    (∀ t ∈ functionType.inputs ++ functionType.results,
        typeToKindEnum b t = .ok (kindCodeOf b t)) ∧
    kindCodeOf b (.integer 32) = 1 ∧
    ∃ sig, makeFunctionSignatureDef b functionType = .ok sig ∧
      sig.argument_types =
        (if functionType.inputs = [] then none
         else some (functionType.inputs.map (kindCodeOf b))) ∧
      sig.result_types =
        (if functionType.results = [] then none
         else some (functionType.results.map (kindCodeOf b))) ∧
      (sig.argument_types = none ↔ functionType.inputs = []) ∧
      (sig.result_types = none ↔ functionType.results = []) := by
  refine ⟨?_, rfl, _, makeFunctionSignatureDef_eq b functionType hin hres, ?_⟩
  · intro t ht
    rcases List.mem_append.1 ht with ht | ht
    · exact typeToKindEnum_of_isI32OrRefPtr b t (hin t ht)
    · exact typeToKindEnum_of_isI32OrRefPtr b t (hres t ht)
  · by_cases ha : functionType.inputs = [] <;> by_cases hr : functionType.results = [] <;>
      simp [ha, hr, createOptionalVector_nil, createOptionalVector_of_ne_nil]

/-- Witness for C7: the signature `(i32, i32) -> i32` is encoded as
`argument_types = [1, 1]`, `result_types = [1]`. -/
theorem makeFunctionSignatureDef_kind_codes_witness :
    makeFunctionSignatureDef { FIRST_IREE_TYPE := 256 }
        { inputs := [.integer 32, .integer 32], results := [.integer 32] } =
      .ok { argument_types := some [1, 1], result_types := some [1] } := by
  obtain ⟨-, -, sig, hs, ha, hr, -, -⟩ :=
    makeFunctionSignatureDef_kind_codes { FIRST_IREE_TYPE := 256 }
      { inputs := [.integer 32, .integer 32], results := [.integer 32] }
      (by decide) (by decide)
  rw [hs]
  cases sig
  simp only at ha hr
  rw [ha, hr]
  rfl

/-- C8. `typeToKindEnum` maps `i32` to `1` and a `ref_ptr` to the kind of its
object type minus `Type::FIRST_IREE_TYPE`; for an object kind accepted by
`RefObjectType::classof` that difference is exact and is neither `0` nor `1`;
and two encodable types with the same kind code are the same type. -/
theorem typeToKindEnum_injective (b : KindBase) :
    typeToKindEnum b (.integer 32) = .ok 1 ∧
    (∀ o : RefObjectType, typeToKindEnum b (.refPtr o) =
        .ok (sub_uint32 o.kind b.FIRST_IREE_TYPE)) ∧
    (∀ o : RefObjectType, RefObjectType.classof b o.kind = true →
        b.FIRST_IREE_TYPE ≤ o.kind ∧
        typeToKindEnum b (.refPtr o) = .ok (o.kind - b.FIRST_IREE_TYPE) ∧
        o.kind - b.FIRST_IREE_TYPE ≠ 1 ∧ o.kind - b.FIRST_IREE_TYPE ≠ 0) ∧
    (∀ t₁ t₂ : MlirType, t₁.isEncodable b = true → t₂.isEncodable b = true →
        typeToKindEnum b t₁ = typeToKindEnum b t₂ → t₁ = t₂) := by
  have key : ∀ o : RefObjectType, RefObjectType.classof b o.kind = true →
      b.FIRST_IREE_TYPE ≤ o.kind ∧
      typeToKindEnum b (.refPtr o) = .ok (o.kind - b.FIRST_IREE_TYPE) ∧
      o.kind - b.FIRST_IREE_TYPE ≠ 1 ∧ o.kind - b.FIRST_IREE_TYPE ≠ 0 := by
    intro o ho
    obtain ⟨k, hk, hmem⟩ := classof_offset b o.kind ho
    have hlt : k < 4294967296 := by
      simp only [List.mem_cons, List.mem_singleton, List.mem_nil_iff, or_false] at hmem
      omega
    have hne : k ≠ 1 ∧ k ≠ 0 := by
      simp only [List.mem_cons, List.mem_singleton, List.mem_nil_iff, or_false] at hmem
      omega
    have hsub : o.kind - b.FIRST_IREE_TYPE = k := by omega
    rw [typeToKindEnum_refPtr, hsub, hk, sub_uint32_add b.FIRST_IREE_TYPE k hlt]
    exact ⟨by omega, rfl, hne.1, hne.2⟩
  refine ⟨rfl, fun o => rfl, key, ?_⟩
  intro t₁ t₂ h₁ h₂ heq
  cases t₁ with
  | integer w₁ =>
    simp only [MlirType.isEncodable, beq_iff_eq] at h₁
    subst h₁
    cases t₂ with
    | integer w₂ =>
      simp only [MlirType.isEncodable, beq_iff_eq] at h₂
      subst h₂
      rfl
    | refPtr o₂ =>
      obtain ⟨-, hc, hn1, -⟩ := key o₂ h₂
      rw [typeToKindEnum_i32, hc] at heq
      exact absurd (Except.ok.inj heq).symm hn1
    | other k => simp [MlirType.isEncodable] at h₂
  | refPtr o₁ =>
    obtain ⟨hle₁, hc₁, hn1, -⟩ := key o₁ h₁
    cases t₂ with
    | integer w₂ =>
      simp only [MlirType.isEncodable, beq_iff_eq] at h₂
      subst h₂
      rw [typeToKindEnum_i32, hc₁] at heq
      exact absurd (Except.ok.inj heq) hn1
    | refPtr o₂ =>
      obtain ⟨hle₂, hc₂, -, -⟩ := key o₂ h₂
      rw [hc₁, hc₂] at heq
      have hk : o₁.kind = o₂.kind := by
        have := Except.ok.inj heq
        omega
      cases o₁
      cases o₂
      simp only at hk
      rw [hk]
    | other k => simp [MlirType.isEncodable] at h₂
  | other k => simp [MlirType.isEncodable] at h₁

/-- Witness for C8, with `FIRST_IREE_TYPE = 256`: the `ref_ptr` to a
`ConstBuffer` (kind `318`) gets code `62`, and it differs from `i32`. -/
theorem typeToKindEnum_injective_witness :
    typeToKindEnum { FIRST_IREE_TYPE := 256 } (.refPtr { kind := 318 }) = .ok (318 - 256) ∧
    (typeToKindEnum { FIRST_IREE_TYPE := 256 } (.refPtr { kind := 318 }) =
        typeToKindEnum { FIRST_IREE_TYPE := 256 } (.integer 32) →
      MlirType.refPtr { kind := 318 } = MlirType.integer 32) :=
  ⟨((typeToKindEnum_injective { FIRST_IREE_TYPE := 256 }).2.2.1 { kind := 318 }
      (by decide)).2.1,
   (typeToKindEnum_injective { FIRST_IREE_TYPE := 256 }).2.2.2 _ _ (by decide) (by decide)⟩

/-! ## Properties of the symbol counts and of the collection step -/

theorem foldl_countOp (ops : List TopLevelOp) (c : ModuleCounts) :
    (ops.foldl countOp c).importFuncs = c.importFuncs + (importFuncsOf ops).length ∧
    (ops.foldl countOp c).internalFuncs = c.internalFuncs + (internalFuncsOf ops).length ∧
    (ops.foldl countOp c).exportFuncs = c.exportFuncs + (exportsOf ops).length ∧
    (ops.foldl countOp c).rodatas = c.rodatas + (rodatasOf ops).length := by
  induction ops generalizing c with
  | nil => simp [importFuncsOf, internalFuncsOf, exportsOf, rodatasOf]
  | cons op ops ih =>
    rw [List.foldl_cons]
    obtain ⟨h1, h2, h3, h4⟩ := ih (countOp c op)
    rw [h1, h2, h3, h4]
    cases op with
    | func f =>
      by_cases hf : f.isExternal = true <;>
        simp [countOp, importFuncsOf, internalFuncsOf, exportsOf, rodatasOf,
          TopLevelOp.asImportFunc, TopLevelOp.asInternalFunc, TopLevelOp.asExport,
          TopLevelOp.asRodata, hf] <;> omega
    | exportOp e =>
      simp [countOp, importFuncsOf, internalFuncsOf, exportsOf, rodatasOf,
        TopLevelOp.asImportFunc, TopLevelOp.asInternalFunc, TopLevelOp.asExport,
        TopLevelOp.asRodata]
      omega
    | rodata r =>
      simp [countOp, importFuncsOf, internalFuncsOf, exportsOf, rodatasOf,
        TopLevelOp.asImportFunc, TopLevelOp.asInternalFunc, TopLevelOp.asExport,
        TopLevelOp.asRodata]
      omega
    | globalI32 n =>
      simp [countOp, importFuncsOf, internalFuncsOf, exportsOf, rodatasOf,
        TopLevelOp.asImportFunc, TopLevelOp.asInternalFunc, TopLevelOp.asExport,
        TopLevelOp.asRodata]
    | globalRef n =>
      simp [countOp, importFuncsOf, internalFuncsOf, exportsOf, rodatasOf,
        TopLevelOp.asImportFunc, TopLevelOp.asInternalFunc, TopLevelOp.asExport,
        TopLevelOp.asRodata]
    | other o =>
      simp [countOp, importFuncsOf, internalFuncsOf, exportsOf, rodatasOf,
        TopLevelOp.asImportFunc, TopLevelOp.asInternalFunc, TopLevelOp.asExport,
        TopLevelOp.asRodata]

/-- The counts of the four ordinal-indexed categories are the numbers of ops. -/
theorem computeModuleSymbolCounts_eq (moduleOp : ModuleOp) :
    (computeModuleSymbolCounts moduleOp).importFuncs = (importFuncsOf moduleOp.ops).length ∧
    (computeModuleSymbolCounts moduleOp).internalFuncs =
      (internalFuncsOf moduleOp.ops).length ∧
    (computeModuleSymbolCounts moduleOp).exportFuncs = (exportsOf moduleOp.ops).length ∧
    (computeModuleSymbolCounts moduleOp).rodatas = (rodatasOf moduleOp.ops).length := by
  obtain ⟨h1, h2, h3, h4⟩ := foldl_countOp moduleOp.ops {}
  unfold computeModuleSymbolCounts
  rw [h1, h2, h3, h4]
  simp

theorem scatter_length {α : Type} (ord : α → Nat) (xs : List α) (v : List (Option α)) :
    (scatter ord v xs).length = v.length := by
  induction xs generalizing v with
  | nil => rfl
  | cons a xs ih =>
    show (scatter ord (v.set (ord a) (some a)) xs).length = v.length
    rw [ih, List.length_set]

/-- The stores all succeed exactly when every index is in range. -/
theorem storeAll_ok_iff {α : Type} (ord : α → Nat) (xs : List α) (v v' : List (Option α)) :
    storeAll ord v xs = .ok v' ↔ (∀ x ∈ xs, ord x < v.length) ∧ v' = scatter ord v xs := by
  induction xs generalizing v with
  | nil =>
    simp only [storeAll, List.foldlM_nil, scatter, List.foldl_nil, List.not_mem_nil,
      false_implies, implies_true, true_and, except_pure]
    exact ⟨fun h => (Except.ok.inj h).symm, fun h => by rw [h]⟩
  | cons a xs ih =>
    unfold storeAll
    rw [List.foldlM_cons]
    by_cases ha : ord a < v.length
    · have hs : storeAt v (ord a) a = .ok (v.set (ord a) (some a)) := by
        simp [storeAt, ha, except_pure]
      rw [hs, except_bind_ok]
      have := ih (v.set (ord a) (some a))
      unfold storeAll at this
      rw [this, List.length_set]
      simp only [List.mem_cons, forall_eq_or_imp, ha, true_and]
      rfl
    · have hs : storeAt v (ord a) a = .error Stop.undefined := by
        simp [storeAt, ha]
        rfl
      rw [hs, except_bind_error]
      simp only [List.mem_cons, forall_eq_or_imp, ha, false_and, iff_false]
      intro h
      cases h

/-- A slot not targeted by any store keeps its content. -/
theorem scatter_getElem?_of_not_mem {α : Type} (ord : α → Nat) (xs : List α)
    (v : List (Option α)) (i : Nat) (h : i ∉ xs.map ord) :
    (scatter ord v xs)[i]? = v[i]? := by
  induction xs generalizing v with
  | nil => rfl
  | cons a xs ih =>
    simp only [List.map_cons, List.mem_cons, not_or] at h
    show (scatter ord (v.set (ord a) (some a)) xs)[i]? = v[i]?
    rw [ih _ h.2, List.getElem?_set_ne (Ne.symm h.1)]

/-- With distinct indices, each stored element is found at its index. -/
theorem scatter_getElem?_of_mem {α : Type} (ord : α → Nat) (xs : List α)
    (v : List (Option α)) (hnd : (xs.map ord).Nodup) (x : α) (hx : x ∈ xs)
    (hlt : ord x < v.length) : (scatter ord v xs)[ord x]? = some (some x) := by
  induction xs generalizing v with
  | nil => cases hx
  | cons a xs ih =>
    rw [List.map_cons, List.nodup_cons] at hnd
    show (scatter ord (v.set (ord a) (some a)) xs)[ord x]? = some (some x)
    rcases List.mem_cons.1 hx with rfl | hx'
    · rw [scatter_getElem?_of_not_mem ord xs _ _ hnd.1, List.getElem?_set_self hlt]
    · exact ih _ hnd.2 hx' (by rw [List.length_set]; exact hlt)

/-- A filled slot of a vector that started empty holds an element stored there. -/
theorem scatter_getElem?_some {α : Type} (ord : α → Nat) (xs : List α)
    (v : List (Option α)) (i : Nat) (x : α) (h : (scatter ord v xs)[i]? = some (some x)) :
    (x ∈ xs ∧ ord x = i) ∨ v[i]? = some (some x) := by
  induction xs generalizing v with
  | nil => exact Or.inr h
  | cons a xs ih =>
    rcases ih (v.set (ord a) (some a)) h with ⟨hm, ho⟩ | hv
    · exact Or.inl ⟨List.mem_cons_of_mem a hm, ho⟩
    · rw [List.getElem?_set] at hv
      split at hv
      · rename_i heq
        split at hv
        · have hxa : a = x := Option.some.inj (Option.some.inj hv)
          exact Or.inl ⟨by rw [hxa]; exact List.mem_cons_self x xs, by rw [← hxa]; exact heq⟩
        · cases hv
      · exact Or.inr hv

theorem storeAll_nil {α : Type} (ord : α → Nat) (v : List (Option α)) :
    storeAll ord v [] = .ok v := rfl

theorem storeAll_cons {α : Type} (ord : α → Nat) (v : List (Option α)) (a : α) (xs : List α) :
    storeAll ord v (a :: xs) = storeAt v (ord a) a >>= fun w => storeAll ord w xs := by
  unfold storeAll
  rw [List.foldlM_cons]

theorem structuralOps_ext_iff (s t : StructuralOps) :
    s = t ↔ s.importFuncOps = t.importFuncOps ∧ s.internalFuncOps = t.internalFuncOps ∧
      s.exportFuncOps = t.exportFuncOps ∧ s.rodataOps = t.rodataOps := by
  constructor
  · intro h
    rw [h]
    exact ⟨rfl, rfl, rfl, rfl⟩
  · intro h
    cases s
    cases t
    simp only at h
    obtain ⟨h1, h2, h3, h4⟩ := h
    rw [h1, h2, h3, h4]

/-- The collection loop is four independent sequences of stores, one per vector. -/
theorem foldlM_collectOp_ok_iff (ops : List TopLevelOp) (s s' : StructuralOps) :
    ops.foldlM collectOp s = .ok s' ↔
      storeAll (fun f : FuncOp => f.ordinal) s.importFuncOps (importFuncsOf ops) =
        .ok s'.importFuncOps ∧
      storeAll (fun f : FuncOp => f.ordinal) s.internalFuncOps (internalFuncsOf ops) =
        .ok s'.internalFuncOps ∧
      storeAll (fun e : ExportOp => e.ordinal) s.exportFuncOps (exportsOf ops) =
        .ok s'.exportFuncOps ∧
      storeAll (fun r : RodataOp => r.ordinal) s.rodataOps (rodatasOf ops) =
        .ok s'.rodataOps := by
  induction ops generalizing s with
  | nil =>
    simp only [List.foldlM_nil, except_pure, importFuncsOf, internalFuncsOf, exportsOf,
      rodatasOf, List.filterMap_nil, storeAll_nil, Except.ok.injEq]
    exact structuralOps_ext_iff s s'
  | cons op ops ih =>
    rw [List.foldlM_cons]
    cases op with
    | func f =>
      by_cases hf : f.isExternal = true
      · have e1 : importFuncsOf (TopLevelOp.func f :: ops) = f :: importFuncsOf ops := by
          simp [importFuncsOf, TopLevelOp.asImportFunc, hf]
        have e2 : internalFuncsOf (TopLevelOp.func f :: ops) = internalFuncsOf ops := by
          simp [internalFuncsOf, TopLevelOp.asInternalFunc, hf]
        have e3 : exportsOf (TopLevelOp.func f :: ops) = exportsOf ops := by
          simp [exportsOf, TopLevelOp.asExport]
        have e4 : rodatasOf (TopLevelOp.func f :: ops) = rodatasOf ops := by
          simp [rodatasOf, TopLevelOp.asRodata]
        rw [e1, e2, e3, e4, storeAll_cons]
        simp only [collectOp, hf, if_true]
        cases hst : storeAt s.importFuncOps f.ordinal f with
        | error e =>
          simp only [except_bind_error, bind, Except.bind, false_and]
          exact ⟨fun h => (by cases h), fun h => (by cases h.1)⟩
        | ok w =>
          simp only [except_bind_ok, bind, Except.bind, except_pure]
          exact ih _
      · have e1 : importFuncsOf (TopLevelOp.func f :: ops) = importFuncsOf ops := by
          simp [importFuncsOf, TopLevelOp.asImportFunc, hf]
        have e2 : internalFuncsOf (TopLevelOp.func f :: ops) = f :: internalFuncsOf ops := by
          simp [internalFuncsOf, TopLevelOp.asInternalFunc, hf]
        have e3 : exportsOf (TopLevelOp.func f :: ops) = exportsOf ops := by
          simp [exportsOf, TopLevelOp.asExport]
        have e4 : rodatasOf (TopLevelOp.func f :: ops) = rodatasOf ops := by
          simp [rodatasOf, TopLevelOp.asRodata]
        rw [e1, e2, e3, e4, storeAll_cons]
        simp only [collectOp, hf, Bool.false_eq_true, if_false]
        cases hst : storeAt s.internalFuncOps f.ordinal f with
        | error e =>
          simp only [except_bind_error, bind, Except.bind, false_and, and_false]
          exact ⟨fun h => (by cases h), fun h => (by cases h.2.1)⟩
        | ok w =>
          simp only [except_bind_ok, bind, Except.bind, except_pure]
          exact ih _
    | exportOp e =>
      have e1 : importFuncsOf (TopLevelOp.exportOp e :: ops) = importFuncsOf ops := by
        simp [importFuncsOf, TopLevelOp.asImportFunc]
      have e2 : internalFuncsOf (TopLevelOp.exportOp e :: ops) = internalFuncsOf ops := by
        simp [internalFuncsOf, TopLevelOp.asInternalFunc]
      have e3 : exportsOf (TopLevelOp.exportOp e :: ops) = e :: exportsOf ops := by
        simp [exportsOf, TopLevelOp.asExport]
      have e4 : rodatasOf (TopLevelOp.exportOp e :: ops) = rodatasOf ops := by
        simp [rodatasOf, TopLevelOp.asRodata]
      rw [e1, e2, e3, e4, storeAll_cons]
      simp only [collectOp]
      cases hst : storeAt s.exportFuncOps e.ordinal e with
      | error e =>
        simp only [except_bind_error, bind, Except.bind, false_and, and_false]
        exact ⟨fun h => (by cases h), fun h => (by cases h.2.2.1)⟩
      | ok w =>
        simp only [except_bind_ok, bind, Except.bind, except_pure]
        exact ih _
    | rodata r =>
      have e1 : importFuncsOf (TopLevelOp.rodata r :: ops) = importFuncsOf ops := by
        simp [importFuncsOf, TopLevelOp.asImportFunc]
      have e2 : internalFuncsOf (TopLevelOp.rodata r :: ops) = internalFuncsOf ops := by
        simp [internalFuncsOf, TopLevelOp.asInternalFunc]
      have e3 : exportsOf (TopLevelOp.rodata r :: ops) = exportsOf ops := by
        simp [exportsOf, TopLevelOp.asExport]
      have e4 : rodatasOf (TopLevelOp.rodata r :: ops) = r :: rodatasOf ops := by
        simp [rodatasOf, TopLevelOp.asRodata]
      rw [e1, e2, e3, e4, storeAll_cons]
      simp only [collectOp]
      cases hst : storeAt s.rodataOps r.ordinal r with
      | error e =>
        simp only [except_bind_error, bind, Except.bind, false_and, and_false]
        exact ⟨fun h => (by cases h), fun h => (by cases h.2.2.2)⟩
      | ok w =>
        simp only [except_bind_ok, bind, Except.bind, except_pure]
        exact ih _
    | globalI32 n =>
      have e1 : importFuncsOf (TopLevelOp.globalI32 n :: ops) = importFuncsOf ops := by
        simp [importFuncsOf, TopLevelOp.asImportFunc]
      have e2 : internalFuncsOf (TopLevelOp.globalI32 n :: ops) = internalFuncsOf ops := by
        simp [internalFuncsOf, TopLevelOp.asInternalFunc]
      have e3 : exportsOf (TopLevelOp.globalI32 n :: ops) = exportsOf ops := by
        simp [exportsOf, TopLevelOp.asExport]
      have e4 : rodatasOf (TopLevelOp.globalI32 n :: ops) = rodatasOf ops := by
        simp [rodatasOf, TopLevelOp.asRodata]
      rw [e1, e2, e3, e4]
      simp only [collectOp, except_pure, bind, Except.bind]
      exact ih _
    | globalRef n =>
      have e1 : importFuncsOf (TopLevelOp.globalRef n :: ops) = importFuncsOf ops := by
        simp [importFuncsOf, TopLevelOp.asImportFunc]
      have e2 : internalFuncsOf (TopLevelOp.globalRef n :: ops) = internalFuncsOf ops := by
        simp [internalFuncsOf, TopLevelOp.asInternalFunc]
      have e3 : exportsOf (TopLevelOp.globalRef n :: ops) = exportsOf ops := by
        simp [exportsOf, TopLevelOp.asExport]
      have e4 : rodatasOf (TopLevelOp.globalRef n :: ops) = rodatasOf ops := by
        simp [rodatasOf, TopLevelOp.asRodata]
      rw [e1, e2, e3, e4]
      simp only [collectOp, except_pure, bind, Except.bind]
      exact ih _
    | other o =>
      have e1 : importFuncsOf (TopLevelOp.other o :: ops) = importFuncsOf ops := by
        simp [importFuncsOf, TopLevelOp.asImportFunc]
      have e2 : internalFuncsOf (TopLevelOp.other o :: ops) = internalFuncsOf ops := by
        simp [internalFuncsOf, TopLevelOp.asInternalFunc]
      have e3 : exportsOf (TopLevelOp.other o :: ops) = exportsOf ops := by
        simp [exportsOf, TopLevelOp.asExport]
      have e4 : rodatasOf (TopLevelOp.other o :: ops) = rodatasOf ops := by
        simp [rodatasOf, TopLevelOp.asRodata]
      rw [e1, e2, e3, e4]
      simp only [collectOp, except_pure, bind, Except.bind]
      exact ih _

/-- With ordinals a permutation of `[0, n)`, the stores into a vector of `n`
null slots all succeed and leave each element at its ordinal. -/
theorem storeAll_of_perm {α : Type} (ord : α → Nat) (xs : List α) (n : Nat)
    (h : (xs.map ord).Perm (List.range n)) :
    storeAll ord (List.replicate n none) xs = .ok (scatter ord (List.replicate n none) xs) ∧
    TableHolds ord xs n (scatter ord (List.replicate n none) xs) := by
  have hnd : (xs.map ord).Nodup := h.nodup_iff.2 (List.nodup_range n)
  have hlt : ∀ x ∈ xs, ord x < n := fun x hx =>
    List.mem_range.1 (h.mem_iff.1 (List.mem_map_of_mem ord hx))
  have hget : ∀ x ∈ xs, (scatter ord (List.replicate n none) xs)[ord x]? = some (some x) :=
    fun x hx => scatter_getElem?_of_mem ord xs _ hnd x hx
      (by rw [List.length_replicate]; exact hlt x hx)
  refine ⟨(storeAll_ok_iff ord xs _ _).2 ⟨?_, rfl⟩, ?_, ?_, ?_⟩
  · intro x hx
    rw [List.length_replicate]
    exact hlt x hx
  · rw [scatter_length, List.length_replicate]
  · exact fun x hx => ⟨hlt x hx, hget x hx⟩
  · intro i hi
    obtain ⟨x, hx, hxi⟩ := List.mem_map.1 (h.mem_iff.2 (List.mem_range.2 hi))
    exact ⟨x, hx, hxi, by rw [← hxi]; exact hget x hx⟩

/-- Conversely: if the stores succeed into `xs.length` null slots and leave no
slot null, the ordinals are a permutation of `[0, xs.length)`. -/
theorem perm_of_storeAll_filled {α : Type} (ord : α → Nat) (xs : List α)
    (v : List (Option α))
    (h : storeAll ord (List.replicate xs.length none) xs = .ok v)
    (hfull : ∀ slot ∈ v, slot ≠ none) : (xs.map ord).Perm (List.range xs.length) := by
  obtain ⟨-, hv⟩ := (storeAll_ok_iff ord xs _ _).1 h
  have hlen : v.length = xs.length := by rw [hv, scatter_length, List.length_replicate]
  have hsub : List.range xs.length ⊆ xs.map ord := by
    intro i hi
    have hi' : i < v.length := by rw [hlen]; exact List.mem_range.1 hi
    have hmem : v[i] ∈ v := List.getElem_mem hi'
    cases hvi : v[i] with
    | none => exact absurd hvi (hfull _ hmem)
    | some x =>
      have hget : (scatter ord (List.replicate xs.length none) xs)[i]? = some (some x) := by
        rw [← hv, List.getElem?_eq_getElem hi', hvi]
      rcases scatter_getElem?_some ord xs _ i x hget with ⟨hx, hxi⟩ | hrep
      · exact List.mem_map.2 ⟨x, hx, hxi⟩
      · rw [List.getElem?_replicate] at hrep
        split at hrep <;> cases hrep
  have hsp : (List.range xs.length).Subperm (xs.map ord) :=
    List.subperm_of_subset (List.nodup_range _) hsub
  exact (hsp.perm_of_length_le (by simp)).symm

/-- The collection step succeeds exactly when the four sequences of stores do. -/
theorem collectStructuralOps_ok_iff (moduleOp : ModuleOp) (s : StructuralOps) :
    collectStructuralOps (computeModuleSymbolCounts moduleOp) moduleOp = .ok s ↔
      storeAll (fun f : FuncOp => f.ordinal)
          (List.replicate (importFuncsOf moduleOp.ops).length none)
          (importFuncsOf moduleOp.ops) = .ok s.importFuncOps ∧
      storeAll (fun f : FuncOp => f.ordinal)
          (List.replicate (internalFuncsOf moduleOp.ops).length none)
          (internalFuncsOf moduleOp.ops) = .ok s.internalFuncOps ∧
      storeAll (fun e : ExportOp => e.ordinal)
          (List.replicate (exportsOf moduleOp.ops).length none)
          (exportsOf moduleOp.ops) = .ok s.exportFuncOps ∧
      storeAll (fun r : RodataOp => r.ordinal)
          (List.replicate (rodatasOf moduleOp.ops).length none)
          (rodatasOf moduleOp.ops) = .ok s.rodataOps := by
  obtain ⟨h1, h2, h3, h4⟩ := computeModuleSymbolCounts_eq moduleOp
  unfold collectStructuralOps
  rw [foldlM_collectOp_ok_iff]
  simp only [resizeStructuralOps, h1, h2, h3, h4]

/-- C2. If in each of the four categories (import functions, internal functions,
exports, rodata segments) the ordinals are a permutation of `[0, count)`, with
`count` from `computeModuleSymbolCounts`, the collection step of
`buildFlatBufferModule` completes (no store is out of range), each vector has
`count` slots, every declaration sits at the index equal to its ordinal, and
every slot holds a declaration of its category with that ordinal. -/
theorem collectStructuralOps_of_ordinalsContiguous (moduleOp : ModuleOp)
    (h : OrdinalsContiguous moduleOp) :
    ∃ s, collectStructuralOps (computeModuleSymbolCounts moduleOp) moduleOp = .ok s ∧
      TableHolds (fun f : FuncOp => f.ordinal) (importFuncsOf moduleOp.ops)
        (computeModuleSymbolCounts moduleOp).importFuncs s.importFuncOps ∧
      TableHolds (fun f : FuncOp => f.ordinal) (internalFuncsOf moduleOp.ops)
        (computeModuleSymbolCounts moduleOp).internalFuncs s.internalFuncOps ∧
      TableHolds (fun e : ExportOp => e.ordinal) (exportsOf moduleOp.ops)
        (computeModuleSymbolCounts moduleOp).exportFuncs s.exportFuncOps ∧
      TableHolds (fun r : RodataOp => r.ordinal) (rodatasOf moduleOp.ops)
        (computeModuleSymbolCounts moduleOp).rodatas s.rodataOps := by
  obtain ⟨p1, p2, p3, p4⟩ := h
  obtain ⟨h1, h2, h3, h4⟩ := computeModuleSymbolCounts_eq moduleOp
  rw [h1] at p1
  rw [h2] at p2
  rw [h3] at p3
  rw [h4] at p4
  rw [h1, h2, h3, h4]
  obtain ⟨a1, b1⟩ := storeAll_of_perm _ _ _ p1
  obtain ⟨a2, b2⟩ := storeAll_of_perm _ _ _ p2
  obtain ⟨a3, b3⟩ := storeAll_of_perm _ _ _ p3
  obtain ⟨a4, b4⟩ := storeAll_of_perm _ _ _ p4
  exact ⟨⟨_, _, _, _⟩, (collectStructuralOps_ok_iff moduleOp _).2 ⟨a1, a2, a3, a4⟩,
    b1, b2, b3, b4⟩

theorem sampleModule_ordinalsContiguous : OrdinalsContiguous sampleModule := by
  refine ⟨?_, ?_, ?_, ?_⟩ <;> decide

/-- Witness for C2: the collection step on `sampleModule`, whose declarations
are stored out of ordinal order. -/
theorem collectStructuralOps_of_ordinalsContiguous_witness :
    OrdinalsContiguous sampleModule ∧
    ∃ s, collectStructuralOps (computeModuleSymbolCounts sampleModule) sampleModule = .ok s ∧
      TableHolds (fun f : FuncOp => f.ordinal) (importFuncsOf sampleModule.ops)
        (computeModuleSymbolCounts sampleModule).importFuncs s.importFuncOps ∧
      TableHolds (fun f : FuncOp => f.ordinal) (internalFuncsOf sampleModule.ops)
        (computeModuleSymbolCounts sampleModule).internalFuncs s.internalFuncOps ∧
      TableHolds (fun e : ExportOp => e.ordinal) (exportsOf sampleModule.ops)
        (computeModuleSymbolCounts sampleModule).exportFuncs s.exportFuncOps ∧
      TableHolds (fun r : RodataOp => r.ordinal) (rodatasOf sampleModule.ops)
        (computeModuleSymbolCounts sampleModule).rodatas s.rodataOps :=
  ⟨sampleModule_ordinalsContiguous,
   collectStructuralOps_of_ordinalsContiguous sampleModule sampleModule_ordinalsContiguous⟩

/-! ## Properties of the encoding and merge loops -/

theorem except_bind_eq_ok {ε α β : Type} (x : Except ε α) (f : α → Except ε β) (b : β) :
    (x >>= f) = .ok b ↔ ∃ a, x = .ok a ∧ f a = .ok b := by
  cases x with
  | error e =>
    constructor
    · intro h
      cases h
    · rintro ⟨a, ha, -⟩
      cases ha
  | ok a =>
    constructor
    · intro h
      exact ⟨a, rfl, h⟩
    · rintro ⟨a', ha, h⟩
      cases ha
      exact h

theorem encodeFuncOp_ok_iff (env : Env) (symbolTable : SymbolTable) (st st' : EncodeState)
    (slot : Option FuncOp) :
    encodeFuncOp env symbolTable st slot = .ok st' ↔
      ∃ e, EncodesTo env symbolTable slot e ∧
        st' = { functionDescriptors := st.functionDescriptors ++
                  [{ bytecode_offset := st.totalBytecodeLength
                     bytecode_length := e.bytecodeData.length
                     i32_register_count := e.i32RegisterCount
                     ref_register_count := e.refRegisterCount }]
                totalBytecodeLength := st.totalBytecodeLength + e.bytecodeData.length
                bytecodeDataParts := st.bytecodeDataParts ++ [e.bytecodeData] } := by
  cases slot with
  | none =>
    constructor
    · intro h
      cases h
    · rintro ⟨e, ⟨f, hf, -⟩, -⟩
      cases hf
  | some f =>
    rcases henc : env.encodeFunction f symbolTable with _ | e
    · simp only [encodeFuncOp, henc]
      constructor
      · intro h
        cases h
      · rintro ⟨e, ⟨f', hf, he⟩, -⟩
        cases hf
        rw [henc] at he
        cases he
    · simp only [encodeFuncOp, henc]
      constructor
      · intro h
        exact ⟨e, ⟨f, rfl, henc⟩, (Except.ok.inj h).symm⟩
      · rintro ⟨e', ⟨f', hf, he⟩, hst⟩
        cases hf
        rw [henc] at he
        cases he
        rw [hst]
        rfl

/-- The encoding loop succeeds exactly when every slot holds a function that
encodes; it then appends their bytes, their descriptors laid out back to
back, and adds their lengths to the running total. -/
theorem foldlM_encodeFuncOp_ok_iff (env : Env) (symbolTable : SymbolTable)
    (slots : List (Option FuncOp)) (st st' : EncodeState) :
    slots.foldlM (encodeFuncOp env symbolTable) st = .ok st' ↔
      ∃ es, List.Forall₂ (EncodesTo env symbolTable) slots es ∧
        st' = { functionDescriptors :=
                  st.functionDescriptors ++ descriptorsFrom st.totalBytecodeLength es
                totalBytecodeLength :=
                  st.totalBytecodeLength + (es.map (fun e => e.bytecodeData)).flatten.length
                bytecodeDataParts :=
                  st.bytecodeDataParts ++ es.map (fun e => e.bytecodeData) } := by
  induction slots generalizing st with
  | nil =>
    rw [List.foldlM_nil]
    constructor
    · intro h
      refine ⟨[], List.Forall₂.nil, ?_⟩
      cases Except.ok.inj h
      simp [descriptorsFrom]
    · rintro ⟨es, hes, hst⟩
      cases hes
      rw [hst]
      simp [descriptorsFrom, except_pure]
  | cons slot slots ih =>
    rw [List.foldlM_cons, except_bind_eq_ok]
    constructor
    · rintro ⟨st₁, h₁, h₂⟩
      obtain ⟨e, he, hst₁⟩ := (encodeFuncOp_ok_iff env symbolTable st st₁ slot).1 h₁
      obtain ⟨es, hes, hst'⟩ := (ih st₁).1 h₂
      refine ⟨e :: es, List.Forall₂.cons he hes, ?_⟩
      rw [hst', hst₁]
      simp [descriptorsFrom, Nat.add_assoc]
    · rintro ⟨es, hes, hst'⟩
      cases hes with
      | cons he hes' =>
        rename_i e es'
        refine ⟨_, (encodeFuncOp_ok_iff env symbolTable st _ slot).2 ⟨e, he, rfl⟩, ?_⟩
        refine (ih _).2 ⟨es', hes', ?_⟩
        rw [hst']
        simp [descriptorsFrom, Nat.add_assoc]

/-- The descriptor at index `i`: its offset is the sum of the lengths before
it, its length the length of the `i`-th encoding. -/
theorem descriptorsFrom_getElem? (es : List EncodedFunction) (start i : Nat)
    (e : EncodedFunction) (h : es[i]? = some e) :
    (descriptorsFrom start es)[i]? =
      some { bytecode_offset :=
               start + ((es.take i).map (fun e => e.bytecodeData.length)).sum
             bytecode_length := e.bytecodeData.length
             i32_register_count := e.i32RegisterCount
             ref_register_count := e.refRegisterCount } := by
  induction es generalizing start i with
  | nil => simp at h
  | cons a es ih =>
    cases i with
    | zero =>
      simp only [List.getElem?_cons_zero, Option.some.injEq] at h
      subst h
      simp [descriptorsFrom]
    | succ i =>
      simp only [List.getElem?_cons_succ] at h
      simp only [descriptorsFrom, List.getElem?_cons_succ, List.take_succ_cons, List.map_cons,
        List.sum_cons]
      rw [ih _ _ h, Nat.add_assoc]

theorem descriptorsFrom_length (es : List EncodedFunction) (start : Nat) :
    (descriptorsFrom start es).length = es.length := by
  induction es generalizing start with
  | nil => rfl
  | cons a es ih => simp [descriptorsFrom, ih]

/-- After `k` rounds of the merge loop the first `k` parts are in place. -/
theorem foldlM_mergePart_take (parts : List (List Byte)) (buffer : List Byte)
    (hlen : buffer.length = parts.flatten.length) (k : Nat) (hk : k ≤ parts.length) :
    (List.range k).foldlM (mergePart parts)
        { bytecodeData := buffer, currentBytecodeOffset := 0 } =
      .ok { bytecodeData := (parts.take k).flatten ++ buffer.drop (parts.take k).flatten.length
            currentBytecodeOffset := (parts.take k).flatten.length } := by
  induction k with
  | zero => simp [except_pure]
  | succ k ih =>
    have hk' : k < parts.length := hk
    rw [List.range_succ, List.foldlM_append, ih (Nat.le_of_lt hk'), except_bind_ok,
      List.foldlM_cons]
    simp only [List.foldlM_nil, bind_pure]
    have htake : parts.take (k + 1) = parts.take k ++ [parts[k]] := by
      rw [List.take_succ, List.getElem?_eq_getElem hk']
      rfl
    have hsplit : parts.flatten =
        (parts.take k).flatten ++ parts[k] ++ (parts.drop (k + 1)).flatten := by
      conv_lhs => rw [← List.take_append_drop (k + 1) parts]
      rw [List.flatten_append, htake, List.flatten_append]
      simp
    have hbound : (parts.take k).flatten.length + parts[k].length ≤ buffer.length := by
      rw [hlen, hsplit]
      simp only [List.length_append]
      omega
    simp only [mergePart, List.getElem?_eq_getElem hk', memcpy]
    have hbuf : ((parts.take k).flatten ++
        buffer.drop (parts.take k).flatten.length).length = buffer.length := by
      rw [List.length_append, List.length_drop]
      omega
    rw [if_pos (by rw [hbuf]; exact hbound)]
    simp only [except_bind_ok, except_pure, bind, Except.bind, pure, Except.pure]
    rw [htake, List.flatten_append]
    simp only [List.flatten_cons, List.flatten_nil, List.append_nil, List.length_append,
      List.take_left, List.drop_append, List.drop_drop, List.append_assoc]

/-- The merge loop writes the parts back to back and fills the buffer. -/
theorem foldlM_mergePart (parts : List (List Byte)) :
    (List.range parts.length).foldlM (mergePart parts)
        { bytecodeData := createUninitializedVector parts.flatten.length
          currentBytecodeOffset := 0 } =
      .ok { bytecodeData := parts.flatten, currentBytecodeOffset := parts.flatten.length } := by
  rw [foldlM_mergePart_take parts _ (by simp [createUninitializedVector]) parts.length
    (Nat.le_refl _)]
  simp [createUninitializedVector]

/-! ## The builder, step by step -/

/-- The builder returns a container exactly when each of its steps completes;
the container is then `finishModuleDef` of what the steps produced. -/
theorem buildFlatBufferModule_ok_iff (env : Env) (targetOptions : BytecodeTargetOptions)
    (moduleOp : ModuleOp) (c : BytecodeModuleDef) :
    buildFlatBufferModule env targetOptions moduleOp = .ok c ↔
      ∃ ops rod enc merged imps exps ints,
        collectStructuralOps (computeModuleSymbolCounts moduleOp) moduleOp = .ok ops ∧
        ops.rodataOps.mapM (serializeRodataOp env) = .ok rod ∧
        ops.internalFuncOps.foldlM (encodeFuncOp env { ops := moduleOp.ops }) {} = .ok enc ∧
        (List.range ops.internalFuncOps.length).foldlM (mergePart enc.bytecodeDataParts)
          { bytecodeData := createUninitializedVector enc.totalBytecodeLength
            currentBytecodeOffset := 0 } = .ok merged ∧
        ops.importFuncOps.mapM (makeImportFunctionDef env) = .ok imps ∧
        ops.exportFuncOps.mapM (makeExportFunctionDef env { ops := moduleOp.ops }) = .ok exps ∧
        makeInternalFunctionDefs env targetOptions ops.internalFuncOps = .ok ints ∧
        c = finishModuleDef moduleOp (computeModuleSymbolCounts moduleOp)
              enc.functionDescriptors (rod.map (fun d => { data := d })) [] ints exps imps
              merged.bytecodeData := by
  unfold buildFlatBufferModule
  simp only [bind_assoc, except_bind_eq_ok, except_pure, Except.ok.injEq]
  constructor
  · rintro ⟨ops, h1, rod, h2, enc, h3, merged, h4, imps, h5, exps, h6, ints, h7, h8⟩
    exact ⟨ops, rod, enc, merged, imps, exps, ints, h1, h2, h3, h4, h5, h6, h7, h8.symm⟩
  · rintro ⟨ops, rod, enc, merged, imps, exps, ints, h1, h2, h3, h4, h5, h6, h7, h8⟩
    exact ⟨ops, h1, rod, h2, enc, h3, merged, h4, imps, h5, exps, h6, ints, h7, h8.symm⟩

/-- If the stores succeed into `xs.length` null slots and leave none null, the
vector holds each element at its ordinal. -/
theorem tableHolds_of_storeAll_filled {α : Type} (ord : α → Nat) (xs : List α)
    (v : List (Option α))
    (h : storeAll ord (List.replicate xs.length none) xs = .ok v)
    (hfull : ∀ slot ∈ v, slot ≠ none) : TableHolds ord xs xs.length v := by
  obtain ⟨h1, h2⟩ := storeAll_of_perm ord xs xs.length (perm_of_storeAll_filled ord xs v h hfull)
  rw [h] at h1
  rw [Except.ok.inj h1]
  exact h2

theorem forall₂_encodesTo_filled (env : Env) (symbolTable : SymbolTable)
    (slots : List (Option FuncOp)) (es : List EncodedFunction)
    (h : List.Forall₂ (EncodesTo env symbolTable) slots es) : ∀ slot ∈ slots, slot ≠ none := by
  induction h with
  | nil => intro slot hs; cases hs
  | cons hd _ ih =>
    intro slot hs
    rcases List.mem_cons.1 hs with rfl | hs'
    · obtain ⟨f, hf, -⟩ := hd
      rw [hf]
      exact Option.some_ne_none f
    · exact ih slot hs'

theorem forall₂_getElem? {α β : Type} (R : α → β → Prop) (l : List α) (r : List β)
    (h : List.Forall₂ R l r) (i : Nat) (a : α) (ha : l[i]? = some a) :
    ∃ y, r[i]? = some y ∧ R a y := by
  induction h generalizing i with
  | nil => simp at ha
  | cons hd _ ih =>
    cases i with
    | zero =>
      simp only [List.getElem?_cons_zero, Option.some.injEq] at ha
      subst ha
      exact ⟨_, List.getElem?_cons_zero, hd⟩
    | succ i =>
      simp only [List.getElem?_cons_succ] at ha
      simpa using ih i ha

/-- The bytes of part `i` are the slice of the concatenation that starts after
the parts before it. -/
theorem flatten_slice (parts : List (List Byte)) (i : Nat) (d : List Byte)
    (h : parts[i]? = some d) :
    (parts.flatten.drop ((parts.take i).map List.length).sum).take d.length = d := by
  obtain ⟨hi, hd⟩ := List.getElem?_eq_some.1 h
  have hsplit : parts.flatten = (parts.take i).flatten ++ (d ++ (parts.drop (i + 1)).flatten) := by
    conv_lhs => rw [← List.take_append_drop i parts, List.drop_eq_getElem_cons hi, hd]
    simp
  rw [← List.length_flatten, hsplit, List.drop_left, List.take_left]

/-- C1. When `buildFlatBufferModule` returns a container, there is a list `es`
of encodings, one per internal function, with `es[i]` the encoding of the
internal function whose ordinal is `i`, such that: the descriptor at index `i`
has `bytecode_offset` the sum of the lengths of `es[0..i-1]` and
`bytecode_length` the length of `es[i]`; `bytecode_data` is the concatenation of
the encodings in ordinal order, so its length is the sum of all lengths; and
the slice of `bytecode_data` at descriptor `i` is the bytes of `es[i]`. -/
theorem buildFlatBufferModule_function_descriptors (env : Env)
    (targetOptions : BytecodeTargetOptions) (moduleOp : ModuleOp) (c : BytecodeModuleDef)
    (h : buildFlatBufferModule env targetOptions moduleOp = .ok c) :
    ∃ (es : List EncodedFunction) (ds : List FunctionDescriptor) (blob : List Byte),
      es.length = (internalFuncsOf moduleOp.ops).length ∧
      (∀ f ∈ internalFuncsOf moduleOp.ops, ∃ e,
        env.encodeFunction f { ops := moduleOp.ops } = some e ∧ es[f.ordinal]? = some e) ∧
      (∀ i, i < es.length → ∃ f ∈ internalFuncsOf moduleOp.ops, f.ordinal = i) ∧
      c.function_descriptors = some ds ∧ c.bytecode_data = some blob ∧
      ds.length = es.length ∧
      (∀ (i : Nat) (e : EncodedFunction), es[i]? = some e →
        ds[i]? = some
          ({ bytecode_offset := ((es.take i).map (fun e => e.bytecodeData.length)).sum
             bytecode_length := e.bytecodeData.length
             i32_register_count := e.i32RegisterCount
             ref_register_count := e.refRegisterCount } : FunctionDescriptor)) ∧
      blob = (es.map (fun e => e.bytecodeData)).flatten ∧
      blob.length = (es.map (fun e => e.bytecodeData.length)).sum ∧
      (∀ (i : Nat) (d : FunctionDescriptor) (e : EncodedFunction),
        ds[i]? = some d → es[i]? = some e →
        (blob.drop d.bytecode_offset).take d.bytecode_length = e.bytecodeData) := by
  obtain ⟨ops, rod, enc, merged, imps, exps, ints, h1, -, h3, h4, -, -, -, hc⟩ :=
    (buildFlatBufferModule_ok_iff env targetOptions moduleOp c).1 h
  obtain ⟨es, hes, henc⟩ := (foldlM_encodeFuncOp_ok_iff env _ _ _ _).1 h3
  obtain ⟨-, hstore, -, -⟩ := (collectStructuralOps_ok_iff moduleOp ops).1 h1
  obtain ⟨htl, hth, htf⟩ := tableHolds_of_storeAll_filled _ _ _ hstore
    (forall₂_encodesTo_filled env _ _ _ hes)
  have hlen : es.length = (internalFuncsOf moduleOp.ops).length := by
    rw [← hes.length_eq, htl]
  have hparts : enc.bytecodeDataParts = es.map (fun e => e.bytecodeData) := by
    rw [henc]
    rfl
  have hdescs : enc.functionDescriptors = descriptorsFrom 0 es := by
    rw [henc]
    rfl
  have htotal : enc.totalBytecodeLength = (es.map (fun e => e.bytecodeData)).flatten.length := by
    rw [henc]
    exact Nat.zero_add _
  have hmerged : merged.bytecodeData = (es.map (fun e => e.bytecodeData)).flatten := by
    have hm := foldlM_mergePart (es.map (fun e => e.bytecodeData))
    rw [List.length_map] at hm
    rw [hparts, htotal, hes.length_eq, hm] at h4
    rw [← Except.ok.inj h4]
  have hdesc : ∀ (i : Nat) (e : EncodedFunction), es[i]? = some e →
      (descriptorsFrom 0 es)[i]? = some
        ({ bytecode_offset := ((es.take i).map (fun e => e.bytecodeData.length)).sum
           bytecode_length := e.bytecodeData.length
           i32_register_count := e.i32RegisterCount
           ref_register_count := e.refRegisterCount } : FunctionDescriptor) := by
    intro i e hie
    rw [descriptorsFrom_getElem? es 0 i e hie, Nat.zero_add]
  refine ⟨es, descriptorsFrom 0 es, (es.map (fun e => e.bytecodeData)).flatten, hlen, ?_, ?_,
    ?_, ?_, descriptorsFrom_length es 0, hdesc, rfl, ?_, ?_⟩
  · intro f hf
    obtain ⟨-, hslot⟩ := hth f hf
    obtain ⟨e, he, f', hf', henc'⟩ := forall₂_getElem? _ _ _ hes _ _ hslot
    cases hf'
    exact ⟨e, henc', he⟩
  · intro i hi
    obtain ⟨f, hf, hfi, -⟩ := htf i (by rw [← hlen]; exact hi)
    exact ⟨f, hf, hfi⟩
  · rw [hc, ← hdescs]
    rfl
  · rw [hc, ← hmerged]
    rfl
  · rw [List.length_flatten, List.map_map]
    rfl
  · intro i d e hd he
    rw [hdesc i e he] at hd
    cases hd
    have hp : (es.map (fun e => e.bytecodeData))[i]? = some e.bytecodeData := by
      rw [List.getElem?_map, he]
      rfl
    have := flatten_slice _ i _ hp
    rw [← List.map_take, List.map_map] at this
    exact this

/-- Witness for C1, on `sampleModule`: `helper` (ordinal 0) is encoded in one
byte and `main` (ordinal 1) in three. -/
theorem buildFlatBufferModule_function_descriptors_witness :
    ∃ c, buildFlatBufferModule sampleEnv sampleOptions sampleModule = .ok c ∧
    ∃ (es : List EncodedFunction) (ds : List FunctionDescriptor) (blob : List Byte),
      es.length = (internalFuncsOf sampleModule.ops).length ∧
      (∀ f ∈ internalFuncsOf sampleModule.ops, ∃ e,
        sampleEnv.encodeFunction f { ops := sampleModule.ops } = some e ∧
          es[f.ordinal]? = some e) ∧
      (∀ i, i < es.length → ∃ f ∈ internalFuncsOf sampleModule.ops, f.ordinal = i) ∧
      c.function_descriptors = some ds ∧ c.bytecode_data = some blob ∧
      ds.length = es.length ∧
      (∀ (i : Nat) (e : EncodedFunction), es[i]? = some e →
        ds[i]? = some
          ({ bytecode_offset := ((es.take i).map (fun e => e.bytecodeData.length)).sum
             bytecode_length := e.bytecodeData.length
             i32_register_count := e.i32RegisterCount
             ref_register_count := e.refRegisterCount } : FunctionDescriptor)) ∧
      blob = (es.map (fun e => e.bytecodeData)).flatten ∧
      blob.length = (es.map (fun e => e.bytecodeData.length)).sum ∧
      (∀ (i : Nat) (d : FunctionDescriptor) (e : EncodedFunction),
        ds[i]? = some d → es[i]? = some e →
        (blob.drop d.bytecode_offset).take d.bytecode_length = e.bytecodeData) :=
  ⟨_, rfl, buildFlatBufferModule_function_descriptors sampleEnv sampleOptions sampleModule _ rfl⟩

/-! ## Which fields of the container are present -/

/-- The fields of the container built by `finishModuleDef`. -/
theorem finishModuleDef_fields (moduleOp : ModuleOp) (symbolCounts : ModuleCounts)
    (ds : List FunctionDescriptor) (rod : List RodataSegmentDef) (rw : List RwdataSegmentDef)
    (ints : List InternalFunctionDef) (exps : List ExportFunctionDef)
    (imps : List ImportFunctionDef) (blob : List Byte) :
    (finishModuleDef moduleOp symbolCounts ds rod rw ints exps imps blob).name =
      some moduleOp.sym_name ∧
    (finishModuleDef moduleOp symbolCounts ds rod rw ints exps imps blob).imported_functions =
      createOptionalVector imps ∧
    (finishModuleDef moduleOp symbolCounts ds rod rw ints exps imps blob).exported_functions =
      some exps ∧
    (finishModuleDef moduleOp symbolCounts ds rod rw ints exps imps blob).internal_functions =
      some ints ∧
    (finishModuleDef moduleOp symbolCounts ds rod rw ints exps imps blob).module_state =
      (if symbolCounts.globalBytes ≠ 0 ∨ symbolCounts.globalRefs ≠ 0 then
        some { global_bytes_capacity := symbolCounts.globalBytes
               global_ref_count := symbolCounts.globalRefs }
       else none) ∧
    (finishModuleDef moduleOp symbolCounts ds rod rw ints exps imps blob).rwdata_segments =
      createOptionalVector rw ∧
    (finishModuleDef moduleOp symbolCounts ds rod rw ints exps imps blob).rodata_segments =
      createOptionalVector rod ∧
    (finishModuleDef moduleOp symbolCounts ds rod rw ints exps imps blob).function_descriptors =
      some ds ∧
    (finishModuleDef moduleOp symbolCounts ds rod rw ints exps imps blob).bytecode_data =
      some blob := by
  unfold finishModuleDef
  cases createOptionalVector imps <;> cases createOptionalVector rw <;>
    cases createOptionalVector rod <;>
    by_cases hg : symbolCounts.globalBytes ≠ 0 ∨ symbolCounts.globalRefs ≠ 0 <;>
    simp only [hg, if_true, if_false, and_self]

theorem serializeRodataOp_ok_iff (env : Env) (slot : Option RodataOp) (d : List Byte) :
    serializeRodataOp env slot = .ok d ↔
      ∃ r, slot = some r ∧ env.serializeConstant r.loc r.value = some d := by
  cases slot with
  | none =>
    constructor
    · intro h
      cases h
    · rintro ⟨r, hr, -⟩
      cases hr
  | some r =>
    rcases hser : env.serializeConstant r.loc r.value with _ | d'
    · simp only [serializeRodataOp, hser]
      constructor
      · intro h
        cases h
      · rintro ⟨r', hr, hd⟩
        cases hr
        rw [hser] at hd
        cases hd
    · simp only [serializeRodataOp, hser]
      constructor
      · intro h
        exact ⟨r, rfl, by rw [hser, Except.ok.inj h]⟩
      · rintro ⟨r', hr, hd⟩
        cases hr
        rw [hser] at hd
        cases hd
        rfl

theorem forall₂_filled {α β : Type} (R : Option α → β → Prop) (slots : List (Option α))
    (ys : List β) (h : List.Forall₂ R slots ys) (hR : ∀ y, ¬ R none y) :
    ∀ slot ∈ slots, slot ≠ none := by
  induction h with
  | nil => intro slot hs; cases hs
  | cons hd _ ih =>
    intro slot hs
    rcases List.mem_cons.1 hs with rfl | hs'
    · intro hn
      rw [hn] at hd
      exact hR _ hd
    · exact ih slot hs'

/-- C3. When `buildFlatBufferModule` returns a container: with no rodata
segment in the module the field `rodata_segments` is absent; with `n >= 1`
rodata segments it is present with exactly `n` entries, and the entry at index
`i` holds the bytes `serializeConstant` returned for the rodata segment whose
ordinal is `i`. -/
theorem buildFlatBufferModule_rodata_segments (env : Env)
    (targetOptions : BytecodeTargetOptions) (moduleOp : ModuleOp) (c : BytecodeModuleDef)
    (h : buildFlatBufferModule env targetOptions moduleOp = .ok c) :
    (computeModuleSymbolCounts moduleOp).rodatas = (rodatasOf moduleOp.ops).length ∧
    (rodatasOf moduleOp.ops = [] → c.rodata_segments = none) ∧
    (rodatasOf moduleOp.ops ≠ [] →
      ∃ segs, c.rodata_segments = some segs ∧
        segs.length = (rodatasOf moduleOp.ops).length ∧
        (∀ r ∈ rodatasOf moduleOp.ops, ∃ d,
          env.serializeConstant r.loc r.value = some d ∧
            segs[r.ordinal]? = some { data := d }) ∧
        (∀ i, i < segs.length → ∃ r ∈ rodatasOf moduleOp.ops, r.ordinal = i)) := by
  obtain ⟨ops, rod, enc, merged, imps, exps, ints, h1, h2, -, -, -, -, -, hc⟩ :=
    (buildFlatBufferModule_ok_iff env targetOptions moduleOp c).1 h
  obtain ⟨-, -, -, hstore⟩ := (collectStructuralOps_ok_iff moduleOp ops).1 h1
  have hf2 := mapM_ok_forall₂ _ _ _ h2
  have hfull : ∀ slot ∈ ops.rodataOps, slot ≠ none :=
    forall₂_filled _ _ _ hf2 (fun y hy => by cases hy)
  obtain ⟨htl, hth, htf⟩ := tableHolds_of_storeAll_filled _ _ _ hstore hfull
  have hlen : rod.length = (rodatasOf moduleOp.ops).length := by
    rw [← hf2.length_eq, htl]
  have hfield : c.rodata_segments =
      createOptionalVector (rod.map (fun d => ({ data := d } : RodataSegmentDef))) := by
    rw [hc]
    exact (finishModuleDef_fields _ _ _ _ _ _ _ _ _).2.2.2.2.2.2.1
  refine ⟨(computeModuleSymbolCounts_eq moduleOp).2.2.2, ?_, ?_⟩
  · intro hnil
    rw [hnil, List.length_nil, List.length_eq_zero] at hlen
    rw [hfield, hlen]
    rfl
  · intro hne
    have hrod : rod ≠ [] := by
      intro hr
      rw [hr, List.length_nil] at hlen
      exact hne (List.length_eq_zero.1 hlen.symm)
    refine ⟨rod.map (fun d => { data := d }), ?_, ?_, ?_, ?_⟩
    · rw [hfield]
      exact createOptionalVector_of_ne_nil _ (by simpa using hrod)
    · rw [List.length_map, hlen]
    · intro r hr
      obtain ⟨-, hslot⟩ := hth r hr
      obtain ⟨d, hd, hser⟩ := forall₂_getElem? _ _ _ hf2 _ _ hslot
      obtain ⟨r', hr', hser'⟩ := (serializeRodataOp_ok_iff env _ d).1 hser
      cases hr'
      refine ⟨d, hser', ?_⟩
      show (rod.map (fun d => ({ data := d } : RodataSegmentDef)))[r.ordinal]? = _
      rw [List.getElem?_map, hd]
      rfl
    · intro i hi
      rw [List.length_map, hlen] at hi
      obtain ⟨r, hr, hri, -⟩ := htf i hi
      exact ⟨r, hr, hri⟩

/-- Witness for C3, on `sampleModule`, which has two rodata segments. -/
theorem buildFlatBufferModule_rodata_segments_witness :
    ∃ c, buildFlatBufferModule sampleEnv sampleOptions sampleModule = .ok c ∧
    (computeModuleSymbolCounts sampleModule).rodatas = (rodatasOf sampleModule.ops).length ∧
    (rodatasOf sampleModule.ops = [] → c.rodata_segments = none) ∧
    (rodatasOf sampleModule.ops ≠ [] →
      ∃ segs, c.rodata_segments = some segs ∧
        segs.length = (rodatasOf sampleModule.ops).length ∧
        (∀ r ∈ rodatasOf sampleModule.ops, ∃ d,
          sampleEnv.serializeConstant r.loc r.value = some d ∧
            segs[r.ordinal]? = some { data := d }) ∧
        (∀ i, i < segs.length → ∃ r ∈ rodatasOf sampleModule.ops, r.ordinal = i)) :=
  ⟨_, rfl, buildFlatBufferModule_rodata_segments sampleEnv sampleOptions sampleModule _ rfl⟩

theorem makeInternalFunctionDefs_strip (env : Env) (targetOptions : BytecodeTargetOptions)
    (slots : List (Option FuncOp)) (h : targetOptions.stripSymbols = true) :
    makeInternalFunctionDefs env targetOptions slots = .ok [] := by
  simp [makeInternalFunctionDefs, h, except_pure]

/-- C4, as stated, fails: on `sampleModule` with `stripSymbols = true` the
builder returns a container whose `internal_functions` field is present. -/
theorem stripSymbols_internal_functions_not_absent :
    ¬ ∀ (env : Env) (targetOptions : BytecodeTargetOptions) (moduleOp : ModuleOp)
        (c : BytecodeModuleDef), targetOptions.stripSymbols = true →
        buildFlatBufferModule env targetOptions moduleOp = .ok c →
        c.internal_functions = none := by
  intro hall
  have := hall sampleEnv sampleStripOptions sampleModule _ rfl rfl
  exact absurd this (by decide)

/-- C4, amended. When `buildFlatBufferModule` returns a container with
`stripSymbols = true`, the field `internal_functions` is present and holds the
empty vector. -/
theorem stripSymbols_internal_functions_empty (env : Env)
    (targetOptions : BytecodeTargetOptions) (moduleOp : ModuleOp) (c : BytecodeModuleDef)
    (hstrip : targetOptions.stripSymbols = true)
    (h : buildFlatBufferModule env targetOptions moduleOp = .ok c) :
    c.internal_functions = some [] := by
  obtain ⟨ops, rod, enc, merged, imps, exps, ints, -, -, -, -, -, -, h7, hc⟩ :=
    (buildFlatBufferModule_ok_iff env targetOptions moduleOp c).1 h
  rw [makeInternalFunctionDefs_strip env targetOptions _ hstrip] at h7
  rw [hc, (finishModuleDef_fields _ _ _ _ _ _ _ _ _).2.2.2.1, ← Except.ok.inj h7]

/-- Witness for amended C4, on `sampleModule`. -/
theorem stripSymbols_internal_functions_empty_witness :
    ∃ c, buildFlatBufferModule sampleEnv sampleStripOptions sampleModule = .ok c ∧
      c.internal_functions = some [] :=
  ⟨_, rfl, stripSymbols_internal_functions_empty sampleEnv sampleStripOptions sampleModule _
    rfl rfl⟩

/-! ## The effect of `stripSymbols` -/

theorem makeFunctionSignatureDef_ok_of_isEncodable (b : KindBase) (functionType : FunctionType)
    (h : functionType.isEncodable = true) :
    ∃ sig, makeFunctionSignatureDef b functionType = .ok sig := by
  simp only [FunctionType.isEncodable, Bool.and_eq_true, List.all_eq_true] at h
  exact ⟨_, makeFunctionSignatureDef_eq b functionType h.1 h.2⟩

/-- A loop that computes one value per element completes when each element does. -/
theorem mapM_ok_of_forall_exists {α β : Type} (f : α → Except Stop β) (l : List α)
    (h : ∀ a ∈ l, ∃ y, f a = .ok y) : ∃ r, l.mapM f = .ok r := by
  induction l with
  | nil => exact ⟨[], rfl⟩
  | cons a l ih =>
    obtain ⟨y, hy⟩ := h a (List.mem_cons_self a l)
    obtain ⟨r, hr⟩ := ih (fun x hx => h x (List.mem_cons_of_mem a hx))
    refine ⟨y :: r, ?_⟩
    rw [List.mapM_cons, hy, hr]
    rfl

/-- Without `stripSymbols`, the internal-function table loop completes when
every slot holds an internal function with an encodable signature. -/
theorem makeInternalFunctionDefs_ok (env : Env) (targetOptions : BytecodeTargetOptions)
    (slots : List (Option FuncOp))
    (h : ∀ slot ∈ slots, ∃ f, slot = some f ∧ f.type.isEncodable = true) :
    ∃ ints, makeInternalFunctionDefs env targetOptions slots = .ok ints := by
  unfold makeInternalFunctionDefs
  by_cases hs : targetOptions.stripSymbols = true
  · exact ⟨[], by simp [hs, except_pure]⟩
  · have hs' : targetOptions.stripSymbols = false := by simpa using hs
    simp only [hs', Bool.not_false, if_true]
    apply mapM_ok_of_forall_exists
    intro slot hslot
    obtain ⟨f, hf, henc⟩ := h slot hslot
    obtain ⟨sig, hsig⟩ := makeFunctionSignatureDef_ok_of_isEncodable env.kinds f.type henc
    refine ⟨{ local_name := f.name, signature := sig }, ?_⟩
    rw [hf]
    simp only [makeInternalFunctionDef, hsig, except_bind_ok, bind, Except.bind, except_pure]

/-- From a container built with one option set to a container built with
another, for a module whose internal functions have encodable signatures. -/
theorem buildFlatBufferModule_options_ok (env : Env) (o₁ o₂ : BytecodeTargetOptions)
    (moduleOp : ModuleOp)
    (henc : ∀ f ∈ internalFuncsOf moduleOp.ops, f.type.isEncodable = true)
    (c₁ : BytecodeModuleDef) (h : buildFlatBufferModule env o₁ moduleOp = .ok c₁) :
    ∃ c₂, buildFlatBufferModule env o₂ moduleOp = .ok c₂ ∧
      c₁.exported_functions = c₂.exported_functions ∧
      c₁.function_descriptors = c₂.function_descriptors ∧
      c₁.name = c₂.name ∧ c₁.imported_functions = c₂.imported_functions ∧
      c₁.module_state = c₂.module_state ∧ c₁.rwdata_segments = c₂.rwdata_segments ∧
      c₁.rodata_segments = c₂.rodata_segments ∧ c₁.bytecode_data = c₂.bytecode_data := by
  obtain ⟨ops, rod, enc, merged, imps, exps, ints, h1, h2, h3, h4, h5, h6, -, hc⟩ :=
    (buildFlatBufferModule_ok_iff env o₁ moduleOp c₁).1 h
  obtain ⟨es, hes, -⟩ := (foldlM_encodeFuncOp_ok_iff env _ _ _ _).1 h3
  obtain ⟨-, hstore, -, -⟩ := (collectStructuralOps_ok_iff moduleOp ops).1 h1
  obtain ⟨-, -, htf⟩ := tableHolds_of_storeAll_filled _ _ _ hstore
    (forall₂_encodesTo_filled env _ _ _ hes)
  have hslots : ∀ slot ∈ ops.internalFuncOps, ∃ f, slot = some f ∧ f.type.isEncodable = true := by
    intro slot hslot
    obtain ⟨i, hi, hget⟩ := List.getElem_of_mem hslot
    have hlen : ops.internalFuncOps.length = (internalFuncsOf moduleOp.ops).length := by
      obtain ⟨-, hv⟩ := (storeAll_ok_iff _ _ _ _).1 hstore
      rw [hv, scatter_length, List.length_replicate]
    obtain ⟨f, hf, -, hfi⟩ := htf i (by rw [← hlen]; exact hi)
    rw [List.getElem?_eq_getElem hi, hget] at hfi
    exact ⟨f, Option.some.inj hfi, henc f hf⟩
  obtain ⟨ints₂, h7⟩ := makeInternalFunctionDefs_ok env o₂ _ hslots
  refine ⟨_, (buildFlatBufferModule_ok_iff env o₂ moduleOp _).2
    ⟨ops, rod, enc, merged, imps, exps, ints₂, h1, h2, h3, h4, h5, h6, h7, rfl⟩, ?_⟩
  rw [hc]
  obtain ⟨a1, a2, a3, -, a5, a6, a7, a8, a9⟩ := finishModuleDef_fields moduleOp
    (computeModuleSymbolCounts moduleOp) enc.functionDescriptors
    (rod.map (fun d => { data := d })) [] ints exps imps merged.bytecodeData
  obtain ⟨b1, b2, b3, -, b5, b6, b7, b8, b9⟩ := finishModuleDef_fields moduleOp
    (computeModuleSymbolCounts moduleOp) enc.functionDescriptors
    (rod.map (fun d => { data := d })) [] ints₂ exps imps merged.bytecodeData
  rw [a1, a2, a3, a5, a6, a7, a8, a9, b1, b2, b3, b5, b6, b7, b8, b9]
  exact ⟨rfl, rfl, rfl, rfl, rfl, rfl, rfl, rfl⟩

/-- C5, as stated, fails: `floatArgModule` builds with `stripSymbols = true`
and does not with `stripSymbols = false` (the signature of its internal
function reaches `llvm_unreachable` in `typeToKindEnum`), the two option sets
differing in nothing else. -/
theorem stripSymbols_changes_success :
    ¬ ∀ (env : Env) (o₁ o₂ : BytecodeTargetOptions) (moduleOp : ModuleOp),
        o₁.outputFormat = o₂.outputFormat → o₁.optimize = o₂.optimize →
        o₁.stripDebugOps = o₂.stripDebugOps →
        ((∃ c₁, buildFlatBufferModule env o₁ moduleOp = .ok c₁) ↔
          (∃ c₂, buildFlatBufferModule env o₂ moduleOp = .ok c₂)) := by
  intro hall
  have hiff := hall sampleEnv sampleStripOptions sampleOptions floatArgModule rfl rfl rfl
  obtain ⟨c₂, hc₂⟩ := hiff.1 ⟨_, rfl⟩
  have hund : buildFlatBufferModule sampleEnv sampleOptions floatArgModule =
      .error Stop.undefined := rfl
  rw [hund] at hc₂
  cases hc₂

/-- C5, amended. For a module whose internal functions have only `i32` and
`ref_ptr` types in their signatures, and any two option sets (in particular
two that differ only in `stripSymbols`): the builder returns a container for
one exactly when it does for the other, and the two containers have the same
`exported_functions`, `function_descriptors`, `name`, `imported_functions`,
`module_state`, `rwdata_segments`, `rodata_segments` and `bytecode_data`. -/
theorem stripSymbols_frame (env : Env) (o₁ o₂ : BytecodeTargetOptions) (moduleOp : ModuleOp)
    (henc : ∀ f ∈ internalFuncsOf moduleOp.ops, f.type.isEncodable = true) :
    ((∃ c₁, buildFlatBufferModule env o₁ moduleOp = .ok c₁) ↔
      (∃ c₂, buildFlatBufferModule env o₂ moduleOp = .ok c₂)) ∧
    (∀ c₁ c₂, buildFlatBufferModule env o₁ moduleOp = .ok c₁ →
      buildFlatBufferModule env o₂ moduleOp = .ok c₂ →
      c₁.exported_functions = c₂.exported_functions ∧
      c₁.function_descriptors = c₂.function_descriptors ∧
      c₁.name = c₂.name ∧ c₁.imported_functions = c₂.imported_functions ∧
      c₁.module_state = c₂.module_state ∧ c₁.rwdata_segments = c₂.rwdata_segments ∧
      c₁.rodata_segments = c₂.rodata_segments ∧ c₁.bytecode_data = c₂.bytecode_data) := by
  refine ⟨⟨?_, ?_⟩, ?_⟩
  · rintro ⟨c₁, h₁⟩
    obtain ⟨c₂, h₂, -⟩ := buildFlatBufferModule_options_ok env o₁ o₂ moduleOp henc c₁ h₁
    exact ⟨c₂, h₂⟩
  · rintro ⟨c₂, h₂⟩
    obtain ⟨c₁, h₁, -⟩ := buildFlatBufferModule_options_ok env o₂ o₁ moduleOp henc c₂ h₂
    exact ⟨c₁, h₁⟩
  · intro c₁ c₂ h₁ h₂
    obtain ⟨c₂', h₂', hf⟩ := buildFlatBufferModule_options_ok env o₁ o₂ moduleOp henc c₁ h₁
    rw [h₂] at h₂'
    cases h₂'
    exact hf

/-- Witness for amended C5, on `sampleModule` with and without `stripSymbols`. -/
theorem stripSymbols_frame_witness :
    (∀ f ∈ internalFuncsOf sampleModule.ops, f.type.isEncodable = true) ∧
    ((∃ c₁, buildFlatBufferModule sampleEnv sampleOptions sampleModule = .ok c₁) ↔
      (∃ c₂, buildFlatBufferModule sampleEnv sampleStripOptions sampleModule = .ok c₂)) ∧
    (∀ c₁ c₂, buildFlatBufferModule sampleEnv sampleOptions sampleModule = .ok c₁ →
      buildFlatBufferModule sampleEnv sampleStripOptions sampleModule = .ok c₂ →
      c₁.exported_functions = c₂.exported_functions ∧
      c₁.function_descriptors = c₂.function_descriptors ∧
      c₁.name = c₂.name ∧ c₁.imported_functions = c₂.imported_functions ∧
      c₁.module_state = c₂.module_state ∧ c₁.rwdata_segments = c₂.rwdata_segments ∧
      c₁.rodata_segments = c₂.rodata_segments ∧ c₁.bytecode_data = c₂.bytecode_data) :=
  ⟨by decide, stripSymbols_frame sampleEnv sampleOptions sampleStripOptions sampleModule
    (by decide)⟩

/-- C6. When `buildFlatBufferModule` returns a container, under any options:
`imported_functions` is present exactly when the module has an import function;
`rwdata_segments` is absent; `exported_functions`, `internal_functions`,
`function_descriptors` and `bytecode_data` are present, with as many exports as
the module has, as many descriptors as it has internal functions, an empty
`internal_functions` under `stripSymbols` (one entry per internal function
otherwise), and an empty `bytecode_data` when there is no internal function. -/
theorem buildFlatBufferModule_field_presence (env : Env)
    (targetOptions : BytecodeTargetOptions) (moduleOp : ModuleOp) (c : BytecodeModuleDef)
    (h : buildFlatBufferModule env targetOptions moduleOp = .ok c) :
    (c.imported_functions.isSome = true ↔ importFuncsOf moduleOp.ops ≠ []) ∧
    c.rwdata_segments = none ∧
    (∃ exps, c.exported_functions = some exps ∧
      exps.length = (exportsOf moduleOp.ops).length) ∧
    (∃ ints, c.internal_functions = some ints ∧
      (targetOptions.stripSymbols = true → ints = []) ∧
      (targetOptions.stripSymbols = false →
        ints.length = (internalFuncsOf moduleOp.ops).length)) ∧
    (∃ ds, c.function_descriptors = some ds ∧
      ds.length = (internalFuncsOf moduleOp.ops).length) ∧
    (∃ blob, c.bytecode_data = some blob ∧ (internalFuncsOf moduleOp.ops = [] → blob = [])) := by
  obtain ⟨ops, rod, enc, merged, imps, exps, ints, h1, -, h3, h4, h5, h6, h7, hc⟩ :=
    (buildFlatBufferModule_ok_iff env targetOptions moduleOp c).1 h
  obtain ⟨s1, s2, s3, -⟩ := (collectStructuralOps_ok_iff moduleOp ops).1 h1
  have l1 : ops.importFuncOps.length = (importFuncsOf moduleOp.ops).length := by
    rw [((storeAll_ok_iff _ _ _ _).1 s1).2, scatter_length, List.length_replicate]
  have l2 : ops.internalFuncOps.length = (internalFuncsOf moduleOp.ops).length := by
    rw [((storeAll_ok_iff _ _ _ _).1 s2).2, scatter_length, List.length_replicate]
  have l3 : ops.exportFuncOps.length = (exportsOf moduleOp.ops).length := by
    rw [((storeAll_ok_iff _ _ _ _).1 s3).2, scatter_length, List.length_replicate]
  obtain ⟨es, hes, henc⟩ := (foldlM_encodeFuncOp_ok_iff env _ _ _ _).1 h3
  have hm := foldlM_mergePart (es.map (fun e => e.bytecodeData))
  rw [List.length_map] at hm
  have hparts : enc.bytecodeDataParts = es.map (fun e => e.bytecodeData) := by rw [henc]; rfl
  have htotal : enc.totalBytecodeLength = (es.map (fun e => e.bytecodeData)).flatten.length := by
    rw [henc]
    exact Nat.zero_add _
  rw [hparts, htotal, hes.length_eq, hm] at h4
  obtain ⟨-, a2, a3, a4, -, a6, -, a8, a9⟩ := finishModuleDef_fields moduleOp
    (computeModuleSymbolCounts moduleOp) enc.functionDescriptors
    (rod.map (fun d => { data := d })) [] ints exps imps merged.bytecodeData
  rw [hc]
  refine ⟨?_, ?_, ⟨exps, a3, ?_⟩, ⟨ints, a4, ?_, ?_⟩, ⟨_, a8, ?_⟩, ⟨_, a9, ?_⟩⟩
  · rw [a2, ← List.length_pos, ← l1, (mapM_ok_forall₂ _ _ _ h5).length_eq]
    cases imps with
    | nil => simp [createOptionalVector_nil]
    | cons a l => simp [createOptionalVector]
  · rw [a6]
    rfl
  · rw [← (mapM_ok_forall₂ _ _ _ h6).length_eq, l3]
  · intro hs
    rw [makeInternalFunctionDefs_strip env targetOptions _ hs] at h7
    exact (Except.ok.inj h7).symm
  · intro hs
    simp only [makeInternalFunctionDefs, hs, Bool.not_false, if_true] at h7
    rw [← (mapM_ok_forall₂ _ _ _ h7).length_eq, l2]
  · rw [henc]
    show ([] ++ descriptorsFrom 0 es).length = _
    rw [List.nil_append, descriptorsFrom_length, ← hes.length_eq, l2]
  · intro hnil
    have hes0 : es = [] := by
      apply List.length_eq_zero.1
      rw [← hes.length_eq, l2, hnil]
      rfl
    rw [← Except.ok.inj h4, hes0]
    rfl

/-- Witness for C6, on the module with no operation: the four fields are
present and empty. -/
theorem buildFlatBufferModule_field_presence_witness :
    ∃ c, buildFlatBufferModule sampleEnv sampleOptions emptyModule = .ok c ∧
    (c.imported_functions.isSome = true ↔ importFuncsOf emptyModule.ops ≠ []) ∧
    c.rwdata_segments = none ∧
    (∃ exps, c.exported_functions = some exps ∧
      exps.length = (exportsOf emptyModule.ops).length) ∧
    (∃ ints, c.internal_functions = some ints ∧
      (sampleOptions.stripSymbols = true → ints = []) ∧
      (sampleOptions.stripSymbols = false →
        ints.length = (internalFuncsOf emptyModule.ops).length)) ∧
    (∃ ds, c.function_descriptors = some ds ∧
      ds.length = (internalFuncsOf emptyModule.ops).length) ∧
    (∃ blob, c.bytecode_data = some blob ∧
      (internalFuncsOf emptyModule.ops = [] → blob = [])) :=
  ⟨_, rfl, buildFlatBufferModule_field_presence sampleEnv sampleOptions emptyModule _ rfl⟩

/-! ## When the builder returns the null offset -/

theorem except_bind_eq_error {ε α β : Type} (x : Except ε α) (f : α → Except ε β) (e : ε) :
    (x >>= f) = .error e ↔ x = .error e ∨ ∃ a, x = .ok a ∧ f a = .error e := by
  cases x with
  | error e' =>
    constructor
    · intro h
      have he : e' = e := Except.error.inj h
      exact Or.inl (by rw [he])
    · rintro (h | ⟨a, ha, -⟩)
      · have he : e' = e := Except.error.inj h
        rw [he]
        rfl
      · cases ha
  | ok a =>
    constructor
    · intro h
      exact Or.inr ⟨a, rfl, h⟩
    · rintro (h | ⟨a', ha, h⟩)
      · cases h
      · cases ha
        exact h

/-- A failed loop failed at one of its elements, with the same outcome. -/
theorem mapM_error {α β : Type} (f : α → Except Stop β) (l : List α) (e : Stop)
    (h : l.mapM f = .error e) : ∃ a ∈ l, f a = .error e := by
  induction l with
  | nil => cases h
  | cons a l ih =>
    rw [List.mapM_cons] at h
    rcases (except_bind_eq_error _ _ _).1 h with h | ⟨y, -, h⟩
    · exact ⟨a, List.mem_cons_self a l, h⟩
    · rcases (except_bind_eq_error _ _ _).1 h with h | ⟨ys, -, h⟩
      · obtain ⟨x, hx, hfx⟩ := ih h
        exact ⟨x, List.mem_cons_of_mem a hx, hfx⟩
      · cases h

/-- A failed stateful loop failed at one of its elements, with the same outcome. -/
theorem foldlM_error {σ α : Type} (f : σ → α → Except Stop σ) (l : List α) (st : σ) (e : Stop)
    (h : l.foldlM f st = .error e) : ∃ st', ∃ a ∈ l, f st' a = .error e := by
  induction l generalizing st with
  | nil => cases h
  | cons a l ih =>
    rw [List.foldlM_cons] at h
    rcases (except_bind_eq_error _ _ _).1 h with h | ⟨st₁, -, h⟩
    · exact ⟨st, a, List.mem_cons_self a l, h⟩
    · obtain ⟨st', x, hx, hfx⟩ := ih st₁ h
      exact ⟨st', x, List.mem_cons_of_mem a hx, hfx⟩

theorem typeToKindEnum_ne_null (b : KindBase) (t : MlirType) :
    typeToKindEnum b t ≠ .error Stop.returnedNull := by
  unfold typeToKindEnum
  split
  · intro h
    cases h
  · split <;> intro h <;> cases h

theorem makeFunctionSignatureDef_ne_null (b : KindBase) (functionType : FunctionType) :
    makeFunctionSignatureDef b functionType ≠ .error Stop.returnedNull := by
  intro h
  unfold makeFunctionSignatureDef at h
  rcases (except_bind_eq_error _ _ _).1 h with h | ⟨args, -, h⟩
  · obtain ⟨t, -, ht⟩ := mapM_error _ _ _ h
    exact typeToKindEnum_ne_null b t ht
  · rcases (except_bind_eq_error _ _ _).1 h with h | ⟨ress, -, h⟩
    · obtain ⟨t, -, ht⟩ := mapM_error _ _ _ h
      exact typeToKindEnum_ne_null b t ht
    · cases h

theorem makeImportFunctionDef_ne_null (env : Env) (slot : Option FuncOp) :
    makeImportFunctionDef env slot ≠ .error Stop.returnedNull := by
  intro h
  cases slot with
  | none => cases h
  | some f =>
    simp only [makeImportFunctionDef] at h
    rcases (except_bind_eq_error _ _ _).1 h with h | ⟨sig, -, h⟩
    · exact makeFunctionSignatureDef_ne_null _ _ h
    · cases h

theorem makeInternalFunctionDef_ne_null (env : Env) (slot : Option FuncOp) :
    makeInternalFunctionDef env slot ≠ .error Stop.returnedNull := by
  intro h
  cases slot with
  | none => cases h
  | some f =>
    simp only [makeInternalFunctionDef] at h
    rcases (except_bind_eq_error _ _ _).1 h with h | ⟨sig, -, h⟩
    · exact makeFunctionSignatureDef_ne_null _ _ h
    · cases h

theorem makeExportFunctionDef_ne_null (env : Env) (symbolTable : SymbolTable)
    (slot : Option ExportOp) :
    makeExportFunctionDef env symbolTable slot ≠ .error Stop.returnedNull := by
  intro h
  cases slot with
  | none => cases h
  | some e =>
    simp only [makeExportFunctionDef] at h
    split at h
    · cases h
    · rcases (except_bind_eq_error _ _ _).1 h with h | ⟨sig, -, h⟩
      · exact makeFunctionSignatureDef_ne_null _ _ h
      · cases h

theorem makeInternalFunctionDefs_ne_null (env : Env) (targetOptions : BytecodeTargetOptions)
    (slots : List (Option FuncOp)) :
    makeInternalFunctionDefs env targetOptions slots ≠ .error Stop.returnedNull := by
  intro h
  unfold makeInternalFunctionDefs at h
  split at h
  · obtain ⟨slot, -, hs⟩ := mapM_error _ _ _ h
    exact makeInternalFunctionDef_ne_null env slot hs
  · cases h

/-- Every slot of a table that holds `xs` is an element of `xs`. -/
theorem tableHolds_mem {α : Type} (ord : α → Nat) (xs : List α) (n : Nat)
    (table : List (Option α)) (h : TableHolds ord xs n table) :
    ∀ slot ∈ table, ∃ x ∈ xs, slot = some x := by
  intro slot hslot
  obtain ⟨i, hi, hget⟩ := List.getElem_of_mem hslot
  obtain ⟨x, hx, -, hxi⟩ := h.2.2 i (by rw [← h.1]; exact hi)
  rw [List.getElem?_eq_getElem hi, hget] at hxi
  exact ⟨x, hx, Option.some.inj hxi⟩

/-- The builder stops without a container exactly when one of its steps does,
the steps before it having completed. -/
theorem buildFlatBufferModule_error_iff (env : Env) (targetOptions : BytecodeTargetOptions)
    (moduleOp : ModuleOp) (e : Stop) :
    buildFlatBufferModule env targetOptions moduleOp = .error e ↔
      collectStructuralOps (computeModuleSymbolCounts moduleOp) moduleOp = .error e ∨
      ∃ ops, collectStructuralOps (computeModuleSymbolCounts moduleOp) moduleOp = .ok ops ∧
        (ops.rodataOps.mapM (serializeRodataOp env) = .error e ∨
         ∃ rod, ops.rodataOps.mapM (serializeRodataOp env) = .ok rod ∧
          (ops.internalFuncOps.foldlM (encodeFuncOp env { ops := moduleOp.ops }) {} = .error e ∨
           ∃ enc, ops.internalFuncOps.foldlM (encodeFuncOp env { ops := moduleOp.ops }) {} =
              .ok enc ∧
            ((List.range ops.internalFuncOps.length).foldlM (mergePart enc.bytecodeDataParts)
                { bytecodeData := createUninitializedVector enc.totalBytecodeLength
                  currentBytecodeOffset := 0 } = .error e ∨
             ∃ merged, (List.range ops.internalFuncOps.length).foldlM
                (mergePart enc.bytecodeDataParts)
                { bytecodeData := createUninitializedVector enc.totalBytecodeLength
                  currentBytecodeOffset := 0 } = .ok merged ∧
              (ops.importFuncOps.mapM (makeImportFunctionDef env) = .error e ∨
               ∃ imps, ops.importFuncOps.mapM (makeImportFunctionDef env) = .ok imps ∧
                (ops.exportFuncOps.mapM (makeExportFunctionDef env { ops := moduleOp.ops }) =
                    .error e ∨
                 ∃ exps, ops.exportFuncOps.mapM
                    (makeExportFunctionDef env { ops := moduleOp.ops }) = .ok exps ∧
                  makeInternalFunctionDefs env targetOptions ops.internalFuncOps =
                    .error e))))) := by
  unfold buildFlatBufferModule
  simp only [bind_assoc, except_bind_eq_error, except_pure, reduceCtorEq, and_false,
    exists_false, or_false]

theorem serializeRodataOp_some_error (env : Env) (r : RodataOp) (e : Stop)
    (h : serializeRodataOp env (some r) = .error e) :
    e = Stop.returnedNull ∧ env.serializeConstant r.loc r.value = none := by
  rcases hser : env.serializeConstant r.loc r.value with _ | d
  · simp only [serializeRodataOp, hser] at h
    exact ⟨(Except.error.inj h).symm, rfl⟩
  · simp only [serializeRodataOp, hser] at h
    cases h

theorem encodeFuncOp_some_error (env : Env) (symbolTable : SymbolTable) (st : EncodeState)
    (f : FuncOp) (e : Stop) (h : encodeFuncOp env symbolTable st (some f) = .error e) :
    e = Stop.returnedNull ∧ env.encodeFunction f symbolTable = none := by
  rcases henc : env.encodeFunction f symbolTable with _ | d
  · simp only [encodeFuncOp, henc] at h
    exact ⟨(Except.error.inj h).symm, rfl⟩
  · simp only [encodeFuncOp, henc] at h
    cases h

theorem mergePart_ne_null (parts : List (List Byte)) (st : MergeState) (k : Nat) :
    mergePart parts st k ≠ .error Stop.returnedNull := by
  intro h
  unfold mergePart at h
  split at h
  · cases h
  · rcases (except_bind_eq_error _ _ _).1 h with h | ⟨buffer, -, h⟩
    · unfold memcpy at h
      split at h <;> cases h
    · cases h

/-- The driver returns failure, with the stream as it was, when the builder
returns the null offset for the canonicalized module. -/
theorem translateModuleToBytecode_of_null (env : Env) (targetOptions : BytecodeTargetOptions)
    (moduleOp₀ moduleOp : ModuleOp) (output : List Byte)
    (hcanon : canonicalizeModule env targetOptions moduleOp₀ = some moduleOp)
    (hfmt : targetOptions.outputFormat ≠ BytecodeOutputFormat.kMlirText)
    (hnull : buildFlatBufferModule env targetOptions moduleOp = .error Stop.returnedNull) :
    translateModuleToBytecode env targetOptions moduleOp₀ output =
      .ok (LogicalResult.failure, output) := by
  unfold translateModuleToBytecode
  simp only [hcanon, hfmt, if_false, hnull]
  rfl

/-- C9. For a module whose ordinals satisfy the precondition,
`buildFlatBufferModule` returns the null offset exactly when `serializeConstant`
returns null for some rodata segment or `encodeFunction` fails for some
internal function; it then returns no container, and
`translateModuleToBytecode`, which reaches the builder for every output format
but `kMlirText`, returns failure. -/
theorem buildFlatBufferModule_null_iff (env : Env) (targetOptions : BytecodeTargetOptions)
    (moduleOp : ModuleOp) (hord : OrdinalsContiguous moduleOp) :
    (buildFlatBufferModule env targetOptions moduleOp = .error Stop.returnedNull ↔
      (∃ r ∈ rodatasOf moduleOp.ops, env.serializeConstant r.loc r.value = none) ∨
      (∃ f ∈ internalFuncsOf moduleOp.ops,
        env.encodeFunction f { ops := moduleOp.ops } = none)) ∧
    (buildFlatBufferModule env targetOptions moduleOp = .error Stop.returnedNull →
      (∀ c, buildFlatBufferModule env targetOptions moduleOp ≠ .ok c) ∧
      ∀ (moduleOp₀ : ModuleOp) (output : List Byte),
        canonicalizeModule env targetOptions moduleOp₀ = some moduleOp →
        targetOptions.outputFormat ≠ BytecodeOutputFormat.kMlirText →
        translateModuleToBytecode env targetOptions moduleOp₀ output =
          .ok (LogicalResult.failure, output)) := by
  obtain ⟨p1, p2, p3, p4⟩ := hord
  obtain ⟨c1, c2, c3, c4⟩ := computeModuleSymbolCounts_eq moduleOp
  rw [c1] at p1
  rw [c2] at p2
  rw [c3] at p3
  rw [c4] at p4
  obtain ⟨a1, -⟩ := storeAll_of_perm _ _ _ p1
  obtain ⟨a2, b2⟩ := storeAll_of_perm _ _ _ p2
  obtain ⟨a3, -⟩ := storeAll_of_perm _ _ _ p3
  obtain ⟨a4, b4⟩ := storeAll_of_perm _ _ _ p4
  have hcollect := (collectStructuralOps_ok_iff moduleOp ⟨_, _, _, _⟩).2 ⟨a1, a2, a3, a4⟩
  -- the outcome of the rodata loop
  have hrodE : ∀ e, (scatter (fun r : RodataOp => r.ordinal)
      (List.replicate (rodatasOf moduleOp.ops).length none) (rodatasOf moduleOp.ops)).mapM
        (serializeRodataOp env) = .error e →
      e = Stop.returnedNull ∧
        ∃ r ∈ rodatasOf moduleOp.ops, env.serializeConstant r.loc r.value = none := by
    intro e he
    obtain ⟨slot, hslot, hs⟩ := mapM_error _ _ _ he
    obtain ⟨r, hr, rfl⟩ := tableHolds_mem _ _ _ _ b4 slot hslot
    obtain ⟨h1, h2⟩ := serializeRodataOp_some_error env r e hs
    exact ⟨h1, r, hr, h2⟩
  have hrodO : ∀ rod, (scatter (fun r : RodataOp => r.ordinal)
      (List.replicate (rodatasOf moduleOp.ops).length none) (rodatasOf moduleOp.ops)).mapM
        (serializeRodataOp env) = .ok rod →
      ¬ ∃ r ∈ rodatasOf moduleOp.ops, env.serializeConstant r.loc r.value = none := by
    rintro rod hrod ⟨r, hr, hnone⟩
    obtain ⟨d, -, hd⟩ := forall₂_getElem? _ _ _ (mapM_ok_forall₂ _ _ _ hrod) _ _ (b4.2.1 r hr).2
    obtain ⟨r', hr', hser⟩ := (serializeRodataOp_ok_iff env _ d).1 hd
    cases hr'
    rw [hnone] at hser
    cases hser
  -- the outcome of the function-encoding loop
  have hencE : ∀ e, (scatter (fun f : FuncOp => f.ordinal)
      (List.replicate (internalFuncsOf moduleOp.ops).length none)
      (internalFuncsOf moduleOp.ops)).foldlM
        (encodeFuncOp env { ops := moduleOp.ops }) {} = .error e →
      e = Stop.returnedNull ∧
        ∃ f ∈ internalFuncsOf moduleOp.ops,
          env.encodeFunction f { ops := moduleOp.ops } = none := by
    intro e he
    obtain ⟨st', slot, hslot, hs⟩ := foldlM_error _ _ _ _ he
    obtain ⟨f, hf, rfl⟩ := tableHolds_mem _ _ _ _ b2 slot hslot
    obtain ⟨h1, h2⟩ := encodeFuncOp_some_error env _ st' f e hs
    exact ⟨h1, f, hf, h2⟩
  have hencO : ∀ enc, (scatter (fun f : FuncOp => f.ordinal)
      (List.replicate (internalFuncsOf moduleOp.ops).length none)
      (internalFuncsOf moduleOp.ops)).foldlM
        (encodeFuncOp env { ops := moduleOp.ops }) {} = .ok enc →
      ¬ ∃ f ∈ internalFuncsOf moduleOp.ops,
          env.encodeFunction f { ops := moduleOp.ops } = none := by
    rintro enc henc ⟨f, hf, hnone⟩
    obtain ⟨es, hes, -⟩ := (foldlM_encodeFuncOp_ok_iff env _ _ _ _).1 henc
    obtain ⟨e, -, f', hf', he⟩ := forall₂_getElem? _ _ _ hes _ _ (b2.2.1 f hf).2
    cases hf'
    rw [hnone] at he
    cases he
  have hiff : buildFlatBufferModule env targetOptions moduleOp = .error Stop.returnedNull ↔
      (∃ r ∈ rodatasOf moduleOp.ops, env.serializeConstant r.loc r.value = none) ∨
      (∃ f ∈ internalFuncsOf moduleOp.ops,
        env.encodeFunction f { ops := moduleOp.ops } = none) := by
    rw [buildFlatBufferModule_error_iff]
    constructor
    · rintro (hc | ⟨ops, hc, hrest⟩)
      · rw [hcollect] at hc
        cases hc
      · rw [hcollect] at hc
        cases hc
        rcases hrest with hrod | ⟨rod, -, hrest⟩
        · exact Or.inl (hrodE _ hrod).2
        · rcases hrest with henc | ⟨enc, -, hrest⟩
          · exact Or.inr (hencE _ henc).2
          · rcases hrest with hm | ⟨merged, -, hrest⟩
            · obtain ⟨st', k, -, hk⟩ := foldlM_error _ _ _ _ hm
              exact absurd hk (mergePart_ne_null _ _ _)
            · rcases hrest with hi | ⟨imps, -, hrest⟩
              · obtain ⟨slot, -, hs⟩ := mapM_error _ _ _ hi
                exact absurd hs (makeImportFunctionDef_ne_null env slot)
              · rcases hrest with hx | ⟨exps, -, hrest⟩
                · obtain ⟨slot, -, hs⟩ := mapM_error _ _ _ hx
                  exact absurd hs (makeExportFunctionDef_ne_null env _ slot)
                · exact absurd hrest (makeInternalFunctionDefs_ne_null env _ _)
    · intro hfail
      refine Or.inr ⟨_, hcollect, ?_⟩
      cases hrod : (scatter (fun r : RodataOp => r.ordinal)
          (List.replicate (rodatasOf moduleOp.ops).length none) (rodatasOf moduleOp.ops)).mapM
            (serializeRodataOp env) with
      | error e =>
        have he := (hrodE e hrod).1
        subst he
        exact Or.inl hrod
      | ok rod =>
        refine Or.inr ⟨rod, hrod, ?_⟩
        cases henc : (scatter (fun f : FuncOp => f.ordinal)
            (List.replicate (internalFuncsOf moduleOp.ops).length none)
            (internalFuncsOf moduleOp.ops)).foldlM
              (encodeFuncOp env { ops := moduleOp.ops }) {} with
        | error e =>
          have he := (hencE e henc).1
          subst he
          exact Or.inl henc
        | ok enc =>
          rcases hfail with hf | hf
          · exact absurd hf (hrodO rod hrod)
          · exact absurd hf (hencO enc henc)
  refine ⟨hiff, fun hnull => ⟨fun c hc => ?_, fun moduleOp₀ output hcanon hfmt => ?_⟩⟩
  · rw [hnull] at hc
    cases hc
  · exact translateModuleToBytecode_of_null env targetOptions moduleOp₀ moduleOp output hcanon
      hfmt hnull

/-- Witness for C9: with collaborators that encode no constant, the builder
returns the null offset on `sampleModule`, which has rodata segments. -/
theorem buildFlatBufferModule_null_iff_witness :
    OrdinalsContiguous sampleModule ∧
    buildFlatBufferModule failingEnv sampleOptions sampleModule = .error Stop.returnedNull ∧
    (buildFlatBufferModule failingEnv sampleOptions sampleModule = .error Stop.returnedNull ↔
      (∃ r ∈ rodatasOf sampleModule.ops, failingEnv.serializeConstant r.loc r.value = none) ∨
      (∃ f ∈ internalFuncsOf sampleModule.ops,
        failingEnv.encodeFunction f { ops := sampleModule.ops } = none)) ∧
    (buildFlatBufferModule failingEnv sampleOptions sampleModule = .error Stop.returnedNull →
      (∀ c, buildFlatBufferModule failingEnv sampleOptions sampleModule ≠ .ok c) ∧
      ∀ (moduleOp₀ : ModuleOp) (output : List Byte),
        canonicalizeModule failingEnv sampleOptions moduleOp₀ = some sampleModule →
        sampleOptions.outputFormat ≠ BytecodeOutputFormat.kMlirText →
        translateModuleToBytecode failingEnv sampleOptions moduleOp₀ output =
          .ok (LogicalResult.failure, output)) :=
  ⟨sampleModule_ordinalsContiguous, rfl,
   buildFlatBufferModule_null_iff failingEnv sampleOptions sampleModule
     sampleModule_ordinalsContiguous⟩

/-! ## The output stream on failure -/

/-- C10. Whenever `translateModuleToBytecode` returns failure, the stream is
what it was before the call, and the failure has one of three causes:
`canonicalizeModule` failed; or the format is `kMlirText` and the liveness or
register-allocation annotation of some function failed; or the format is
another one and the builder returned the null offset. -/
theorem translateModuleToBytecode_failure_output (env : Env)
    (targetOptions : BytecodeTargetOptions) (moduleOp : ModuleOp) (output output' : List Byte)
    (h : translateModuleToBytecode env targetOptions moduleOp output =
      .ok (LogicalResult.failure, output')) :
    output' = output ∧
    (canonicalizeModule env targetOptions moduleOp = none ∨
     (∃ m, canonicalizeModule env targetOptions moduleOp = some m ∧
        targetOptions.outputFormat = BytecodeOutputFormat.kMlirText ∧
        m.ops.mapM (annotateOp env) = none) ∨
     (∃ m, canonicalizeModule env targetOptions moduleOp = some m ∧
        targetOptions.outputFormat ≠ BytecodeOutputFormat.kMlirText ∧
        buildFlatBufferModule env targetOptions m = .error Stop.returnedNull)) := by
  unfold translateModuleToBytecode at h
  split at h
  · rename_i hcanon
    cases h
    exact ⟨rfl, Or.inl hcanon⟩
  · rename_i m hcanon
    split at h
    · rename_i hfmt
      split at h
      · rename_i hann
        cases h
        exact ⟨rfl, Or.inr (Or.inl ⟨m, hcanon, hfmt, hann⟩)⟩
      · cases h
    · rename_i hfmt
      split at h
      · cases h
      · rename_i hbuild
        cases h
        exact ⟨rfl, Or.inr (Or.inr ⟨m, hcanon, hfmt, hbuild⟩)⟩
      · split at h <;> cases h

/-- Witness for C10: with collaborators that encode no constant the translation
of `sampleModule` fails and the stream `[1, 2, 3]` is left as it was. -/
theorem translateModuleToBytecode_failure_output_witness :
    translateModuleToBytecode failingEnv sampleOptions sampleModule [1, 2, 3] =
      .ok (LogicalResult.failure, [1, 2, 3]) ∧
    ([1, 2, 3] = [1, 2, 3] ∧
    (canonicalizeModule failingEnv sampleOptions sampleModule = none ∨
     (∃ m, canonicalizeModule failingEnv sampleOptions sampleModule = some m ∧
        sampleOptions.outputFormat = BytecodeOutputFormat.kMlirText ∧
        m.ops.mapM (annotateOp failingEnv) = none) ∨
     (∃ m, canonicalizeModule failingEnv sampleOptions sampleModule = some m ∧
        sampleOptions.outputFormat ≠ BytecodeOutputFormat.kMlirText ∧
        buildFlatBufferModule failingEnv sampleOptions m = .error Stop.returnedNull))) :=
  ⟨rfl, translateModuleToBytecode_failure_output failingEnv sampleOptions sampleModule
    [1, 2, 3] [1, 2, 3] rfl⟩

/-! ## The module state -/

theorem foldl_countOp_globals (ops : List TopLevelOp) (c : ModuleCounts) :
    (ops.foldl countOp c).globalBytes = c.globalBytes + (globalI32sOf ops).length ∧
    (ops.foldl countOp c).globalRefs = c.globalRefs + (globalRefsOf ops).length := by
  induction ops generalizing c with
  | nil => simp [globalI32sOf, globalRefsOf]
  | cons op ops ih =>
    rw [List.foldl_cons]
    obtain ⟨h1, h2⟩ := ih (countOp c op)
    rw [h1, h2]
    cases op with
    | func f =>
      by_cases hf : f.isExternal = true <;>
        simp [countOp, globalI32sOf, globalRefsOf, TopLevelOp.asGlobalI32,
          TopLevelOp.asGlobalRef, hf]
    | exportOp e =>
      simp [countOp, globalI32sOf, globalRefsOf, TopLevelOp.asGlobalI32, TopLevelOp.asGlobalRef]
    | rodata r =>
      simp [countOp, globalI32sOf, globalRefsOf, TopLevelOp.asGlobalI32, TopLevelOp.asGlobalRef]
    | globalI32 n =>
      simp [countOp, globalI32sOf, globalRefsOf, TopLevelOp.asGlobalI32, TopLevelOp.asGlobalRef]
      omega
    | globalRef n =>
      simp [countOp, globalI32sOf, globalRefsOf, TopLevelOp.asGlobalI32, TopLevelOp.asGlobalRef]
      omega
    | other o =>
      simp [countOp, globalI32sOf, globalRefsOf, TopLevelOp.asGlobalI32, TopLevelOp.asGlobalRef]

/-- The two global counts are the numbers of global declarations. -/
theorem computeModuleSymbolCounts_globals (moduleOp : ModuleOp) :
    (computeModuleSymbolCounts moduleOp).globalBytes = (globalI32sOf moduleOp.ops).length ∧
    (computeModuleSymbolCounts moduleOp).globalRefs = (globalRefsOf moduleOp.ops).length := by
  obtain ⟨h1, h2⟩ := foldl_countOp_globals moduleOp.ops {}
  unfold computeModuleSymbolCounts
  rw [h1, h2]
  simp

/-- C13. When `buildFlatBufferModule` returns a container, `module_state` is
present exactly when the module declares an i32 global or a reference global;
when present, `global_bytes_capacity` is the number of i32 global declarations
and `global_ref_count` the number of reference global declarations, which are
the counts `computeModuleSymbolCounts` obtains in its one pass over the
top-level operations. -/
theorem buildFlatBufferModule_module_state (env : Env)
    (targetOptions : BytecodeTargetOptions) (moduleOp : ModuleOp) (c : BytecodeModuleDef)
    (h : buildFlatBufferModule env targetOptions moduleOp = .ok c) :
    computeModuleSymbolCounts moduleOp = moduleOp.ops.foldl countOp {} ∧
    (computeModuleSymbolCounts moduleOp).globalBytes = (globalI32sOf moduleOp.ops).length ∧
    (computeModuleSymbolCounts moduleOp).globalRefs = (globalRefsOf moduleOp.ops).length ∧
    (c.module_state.isSome = true ↔
      globalI32sOf moduleOp.ops ≠ [] ∨ globalRefsOf moduleOp.ops ≠ []) ∧
    (∀ ms, c.module_state = some ms →
      ms.global_bytes_capacity = (globalI32sOf moduleOp.ops).length ∧
      ms.global_ref_count = (globalRefsOf moduleOp.ops).length) := by
  obtain ⟨ops, rod, enc, merged, imps, exps, ints, -, -, -, -, -, -, -, hc⟩ :=
    (buildFlatBufferModule_ok_iff env targetOptions moduleOp c).1 h
  obtain ⟨g1, g2⟩ := computeModuleSymbolCounts_globals moduleOp
  have hms := (finishModuleDef_fields moduleOp (computeModuleSymbolCounts moduleOp)
    enc.functionDescriptors (rod.map (fun d => { data := d })) [] ints exps imps
    merged.bytecodeData).2.2.2.2.1
  rw [← hc, g1, g2] at hms
  refine ⟨rfl, g1, g2, ?_, ?_⟩
  · rw [hms, ← List.length_pos, ← List.length_pos]
    by_cases hg : (globalI32sOf moduleOp.ops).length ≠ 0 ∨ (globalRefsOf moduleOp.ops).length ≠ 0
    · rw [if_pos hg]
      simp only [Option.isSome_some, true_iff]
      omega
    · rw [if_neg hg]
      simp only [Option.isSome_none, Bool.false_eq_true, false_iff]
      omega
  · intro ms hsome
    rw [hms] at hsome
    split at hsome
    · cases hsome
      exact ⟨rfl, rfl⟩
    · cases hsome

/-- Witness for C13, on `sampleModule`, which declares one global of each kind. -/
theorem buildFlatBufferModule_module_state_witness :
    ∃ c, buildFlatBufferModule sampleEnv sampleOptions sampleModule = .ok c ∧
    computeModuleSymbolCounts sampleModule = sampleModule.ops.foldl countOp {} ∧
    (computeModuleSymbolCounts sampleModule).globalBytes =
      (globalI32sOf sampleModule.ops).length ∧
    (computeModuleSymbolCounts sampleModule).globalRefs =
      (globalRefsOf sampleModule.ops).length ∧
    (c.module_state.isSome = true ↔
      globalI32sOf sampleModule.ops ≠ [] ∨ globalRefsOf sampleModule.ops ≠ []) ∧
    (∀ ms, c.module_state = some ms →
      ms.global_bytes_capacity = (globalI32sOf sampleModule.ops).length ∧
      ms.global_ref_count = (globalRefsOf sampleModule.ops).length) :=
  ⟨_, rfl, buildFlatBufferModule_module_state sampleEnv sampleOptions sampleModule _ rfl⟩

/-! ## Which `ref_ptr` types can be constructed -/

theorem verifyConstructionInvariants_fst (b : KindBase) (loc : Option Location) (kind : Nat) :
    (RefPtrType.verifyConstructionInvariants b loc kind).1 =
      if RefObjectType.classof b kind = true then LogicalResult.success
      else LogicalResult.failure := by
  unfold RefPtrType.verifyConstructionInvariants
  cases hc : RefObjectType.classof b kind <;> cases loc <;> simp

theorem getChecked_eq (b : KindBase) (kind : Nat) (location : Location) :
    RefPtrType.getChecked b kind location =
      if RefObjectType.classof b kind = true then some (.refPtr { kind := kind }) else none := by
  unfold RefPtrType.getChecked
  rw [verifyConstructionInvariants_fst]
  cases hc : RefObjectType.classof b kind <;> simp

/-- The three declared HAL kinds that `classof` has no case for. -/
theorem classof_unlisted (b : KindBase) :
    RefObjectType.classof b b.HAL_Allocator = false ∧
    RefObjectType.classof b b.HAL_BufferView = false ∧
    RefObjectType.classof b b.HAL_ExecutableCache = false := by
  obtain ⟨h1, h2, h3, h4, h5, h6, h7, h8, h9, h10, h11, h12, h13, h14, h15, h16⟩ :=
    kind_values b
  refine ⟨?_, ?_, ?_⟩ <;>
  · rw [Bool.eq_false_iff]
    intro h
    rw [classof_iff, h1, h2, h4, h6, h7, h8, h9, h11, h12, h13, h14, h15, h16] at h
    omega

/-- The kind code of an encodable type is none of `20`, `22`, `27`. -/
theorem typeToKindEnum_of_isEncodable (b : KindBase) (t : MlirType)
    (ht : t.isEncodable b = true) (c : Nat) (hc : typeToKindEnum b t = .ok c) :
    c ≠ 20 ∧ c ≠ 22 ∧ c ≠ 27 := by
  cases t with
  | integer w =>
    simp only [MlirType.isEncodable, beq_iff_eq] at ht
    subst ht
    rw [typeToKindEnum_i32] at hc
    cases hc
    omega
  | refPtr o =>
    obtain ⟨k, hk, hmem⟩ := classof_offset b o.kind ht
    have hlt : k < 4294967296 := by
      simp only [List.mem_cons, List.mem_singleton, List.mem_nil_iff, or_false] at hmem
      omega
    rw [typeToKindEnum_refPtr, hk, sub_uint32_add b.FIRST_IREE_TYPE k hlt] at hc
    cases hc
    simp only [List.mem_cons, List.mem_singleton, List.mem_nil_iff, or_false] at hmem
    omega
  | other k => simp [MlirType.isEncodable] at ht

/-- C14. `RefPtrType::verifyConstructionInvariants` succeeds exactly for the
thirteen kinds `RefObjectType::classof` accepts; it fails for the HAL kinds
`Allocator`, `BufferView` and `ExecutableCache`, whose kind codes would be
`20`, `22` and `27`; `getChecked` returns the null type for them, and the kind
code `typeToKindEnum` gives to a type returned by `getChecked`, or to any
encodable type, is none of `20`, `22`, `27`. -/
theorem verifyConstructionInvariants_iff (b : KindBase) :
    (∀ (loc : Option Location) (kind : Nat),
      (RefPtrType.verifyConstructionInvariants b loc kind).1 = LogicalResult.success ↔
        kind ∈ [b.OpaqueRefObject, b.ConstBuffer, b.HAL_Buffer, b.HAL_CommandBuffer,
          b.HAL_Device, b.HAL_Event, b.HAL_Executable, b.HAL_Fence, b.HAL_Semaphore,
          b.SEQ_Device, b.SEQ_Policy, b.SEQ_Resource, b.SEQ_Timeline]) ∧
    (∀ loc : Option Location,
      (RefPtrType.verifyConstructionInvariants b loc b.HAL_Allocator).1 =
        LogicalResult.failure ∧
      (RefPtrType.verifyConstructionInvariants b loc b.HAL_BufferView).1 =
        LogicalResult.failure ∧
      (RefPtrType.verifyConstructionInvariants b loc b.HAL_ExecutableCache).1 =
        LogicalResult.failure) ∧
    (∀ location : Location,
      RefPtrType.getChecked b b.HAL_Allocator location = none ∧
      RefPtrType.getChecked b b.HAL_BufferView location = none ∧
      RefPtrType.getChecked b b.HAL_ExecutableCache location = none) ∧
    (sub_uint32 b.HAL_Allocator b.FIRST_IREE_TYPE = 20 ∧
      sub_uint32 b.HAL_BufferView b.FIRST_IREE_TYPE = 22 ∧
      sub_uint32 b.HAL_ExecutableCache b.FIRST_IREE_TYPE = 27) ∧
    (∀ (kind : Nat) (location : Location) (t : MlirType),
      RefPtrType.getChecked b kind location = some t →
        ∃ c, typeToKindEnum b t = .ok c ∧ c ≠ 20 ∧ c ≠ 22 ∧ c ≠ 27) ∧
    (∀ (t : MlirType) (c : Nat), t.isEncodable b = true → typeToKindEnum b t = .ok c →
        c ≠ 20 ∧ c ≠ 22 ∧ c ≠ 27) := by
  obtain ⟨u1, u2, u3⟩ := classof_unlisted b
  obtain ⟨-, -, v3, -, v5, -, -, -, -, v10, -, -, -, -, -, -⟩ := kind_values b
  refine ⟨?_, ?_, ?_, ?_, ?_, ?_⟩
  · intro loc kind
    rw [verifyConstructionInvariants_fst]
    simp only [List.mem_cons, List.mem_singleton, List.mem_nil_iff, or_false, ← classof_iff]
    cases RefObjectType.classof b kind <;> simp
  · intro loc
    simp only [verifyConstructionInvariants_fst, u1, u2, u3, Bool.false_eq_true, if_false,
      and_self]
  · intro location
    simp only [getChecked_eq, u1, u2, u3, Bool.false_eq_true, if_false, and_self]
  · rw [v3, v5, v10]
    exact ⟨sub_uint32_add _ 20 (by omega), sub_uint32_add _ 22 (by omega),
      sub_uint32_add _ 27 (by omega)⟩
  · intro kind location t ht
    rw [getChecked_eq] at ht
    split at ht
    · rename_i hc
      cases ht
      exact ⟨_, typeToKindEnum_refPtr b _, typeToKindEnum_of_isEncodable b
        (.refPtr { kind := kind }) hc _ (typeToKindEnum_refPtr b _)⟩
    · cases ht
  · intro t c ht hc
    exact typeToKindEnum_of_isEncodable b t ht c hc

/-- Witness for C14, with `FIRST_IREE_TYPE = 256`: `getChecked` returns the
null type for a HAL `Allocator` (kind `276`), and the `ref_ptr` it returns for
a HAL `Buffer` (kind `277`) has a kind code that is none of `20`, `22`, `27`. -/
theorem verifyConstructionInvariants_iff_witness :
    RefPtrType.getChecked { FIRST_IREE_TYPE := 256 } 276 { id := 0 } = none ∧
    RefPtrType.getChecked { FIRST_IREE_TYPE := 256 } 277 { id := 0 } =
      some (.refPtr { kind := 277 }) ∧
    ∃ c, typeToKindEnum { FIRST_IREE_TYPE := 256 } (.refPtr { kind := 277 }) = .ok c ∧
      c ≠ 20 ∧ c ≠ 22 ∧ c ≠ 27 :=
  ⟨((verifyConstructionInvariants_iff { FIRST_IREE_TYPE := 256 }).2.2.1 { id := 0 }).1, rfl,
   (verifyConstructionInvariants_iff { FIRST_IREE_TYPE := 256 }).2.2.2.2.1 277 { id := 0 } _ rfl⟩

/-! ## Canonicalization -/

/-- The conversion driver of the spec fails on a module that holds an
operation of the illegal set. -/
theorem applyFullConversion_illegal (target : ConversionTarget) (moduleOp : ModuleOp)
    (h : ∃ op ∈ moduleOp.operations, op.name ∈ target.illegalOps) :
    applyFullConversion target moduleOp = none := by
  obtain ⟨op, hop, hname⟩ := h
  unfold applyFullConversion
  rw [if_neg]
  intro hall
  have hlegal := List.all_eq_true.1 hall op hop
  simp [ConversionTarget.isLegal, hname] at hlegal

/-- The value of `canonicalizeModule` when the conversion fails. -/
theorem canonicalizeModule_of_conversion_none (env : Env)
    (targetOptions : BytecodeTargetOptions) (moduleOp : ModuleOp)
    (hstrip : targetOptions.stripDebugOps = true)
    (h : env.applyFullConversion { legalDialects := ["vm"], illegalOps := debugOpNames }
      moduleOp = none) :
    canonicalizeModule env targetOptions moduleOp = none := by
  unfold canonicalizeModule
  simp only [hstrip, if_true, List.nil_append]
  have ht : debugOpNames = ["vm.trace", "vm.print", "vm.break", "vm.cond_break"] := rfl
  rw [ht] at h
  rw [h]

/-- C11. With the conversion driver as the spec describes it, for a module
that holds a trace, print, break or conditional-break operation and with
`stripDebugOps = true`: the legality check of `canonicalizeModule` rejects the
module, `canonicalizeModule` fails, and `translateModuleToBytecode` returns
failure with nothing written, whatever the builder's collaborators are. -/
theorem canonicalizeModule_debug_ops (env : Env) (targetOptions : BytecodeTargetOptions)
    (moduleOp : ModuleOp) (output : List Byte)
    (hconv : env.applyFullConversion = applyFullConversion)
    (hstrip : targetOptions.stripDebugOps = true)
    (hdebug : ∃ op ∈ moduleOp.operations, op.name ∈ debugOpNames) :
    env.applyFullConversion { legalDialects := ["vm"], illegalOps := debugOpNames }
      moduleOp = none ∧
    canonicalizeModule env targetOptions moduleOp = none ∧
    translateModuleToBytecode env targetOptions moduleOp output =
      .ok (LogicalResult.failure, output) := by
  have h1 : env.applyFullConversion { legalDialects := ["vm"], illegalOps := debugOpNames }
      moduleOp = none := by
    rw [hconv]
    exact applyFullConversion_illegal _ _ hdebug
  have h2 := canonicalizeModule_of_conversion_none env targetOptions moduleOp hstrip h1
  refine ⟨h1, h2, ?_⟩
  unfold translateModuleToBytecode
  rw [h2]
  rfl

/-- Witness for C11: `traceModule` is rejected with `stripDebugOps = true`,
and passes canonicalization without it. -/
theorem canonicalizeModule_debug_ops_witness :
    (∃ op ∈ traceModule.operations, op.name ∈ debugOpNames) ∧
    canonicalizeModule checkingEnv sampleOptions traceModule = some traceModule ∧
    (checkingEnv.applyFullConversion { legalDialects := ["vm"], illegalOps := debugOpNames }
      traceModule = none ∧
    canonicalizeModule checkingEnv stripDebugOptions traceModule = none ∧
    translateModuleToBytecode checkingEnv stripDebugOptions traceModule [1, 2, 3] =
      .ok (LogicalResult.failure, [1, 2, 3])) :=
  ⟨by decide, rfl,
   canonicalizeModule_debug_ops checkingEnv stripDebugOptions traceModule [1, 2, 3] rfl rfl
     (by decide)⟩

theorem option_bind_eq_some {α β : Type} (x : Option α) (f : α → Option β) (y : β) :
    (x >>= f) = some y ↔ ∃ a, x = some a ∧ f a = some y := by
  cases x with
  | none =>
    constructor
    · intro h
      cases h
    · rintro ⟨a, ha, -⟩
      cases ha
  | some a =>
    constructor
    · intro h
      exact ⟨a, rfl, h⟩
    · rintro ⟨a', ha, h⟩
      cases ha
      exact h

/-- The optimization sequence followed by ordinal allocation succeeds exactly
when the four passes succeed one after the other. -/
theorem runPassPipeline_optimize (runPass : Pass → ModuleOp → Option ModuleOp)
    (m₀ m' : ModuleOp) :
    runPassPipeline runPass (optimizationPasses ++ [Pass.ordinalAllocation]) m₀ = some m' ↔
      ∃ m₁ m₂ m₃, runPass Pass.inliner m₀ = some m₁ ∧ runPass Pass.cse m₁ = some m₂ ∧
        runPass Pass.canonicalizer m₂ = some m₃ ∧ runPass Pass.ordinalAllocation m₃ = some m' := by
  unfold runPassPipeline optimizationPasses
  simp only [List.cons_append, List.nil_append, List.foldlM_cons, List.foldlM_nil,
    option_bind_eq_some, bind_pure]
  constructor
  · rintro ⟨m₁, h₁, m₂, h₂, m₃, h₃, h₄⟩
    exact ⟨m₁, m₂, m₃, h₁, h₂, h₃, h₄⟩
  · rintro ⟨m₁, m₂, m₃, h₁, h₂, h₃, h₄⟩
    exact ⟨m₁, h₁, m₂, h₂, m₃, h₃, h₄⟩

/-- With `optimize` set, `canonicalizeModule` succeeds exactly when the
conversion does and the pass manager then runs the optimization sequence
followed by ordinal allocation. -/
theorem canonicalizeModule_optimize_eq (env : Env) (targetOptions : BytecodeTargetOptions)
    (moduleOp m' : ModuleOp) (hopt : targetOptions.optimize = true)
    (h : canonicalizeModule env targetOptions moduleOp = some m') :
    ∃ target m₀, env.applyFullConversion target moduleOp = some m₀ ∧
      env.runPasses (optimizationPasses ++ [Pass.ordinalAllocation]) m₀ = some m' := by
  unfold canonicalizeModule at h
  simp only [hopt, if_true, List.nil_append] at h
  split at h
  · cases h
  · rename_i m₀ hconv
    split at h
    · cases h
    · rename_i m₁ hrun
      cases h
      exact ⟨_, m₀, hconv, hrun⟩

/-- C12, as stated, fails: with the passes of `samplePass` run in order, the
module `canonicalizeModule` hands to ordinal allocation for `foldableModule`
is not left unchanged by one more round of the optimization sequence
(canonicalization has created a repeated operation that only another
common-subexpression elimination removes). -/
theorem optimize_not_fixpoint :
    ¬ ∀ (env : Env) (runPass : Pass → ModuleOp → Option ModuleOp)
        (targetOptions : BytecodeTargetOptions) (moduleOp m' : ModuleOp),
        env.runPasses = runPassPipeline runPass → targetOptions.optimize = true →
        canonicalizeModule env targetOptions moduleOp = some m' →
        ∃ target m₀ m₁, env.applyFullConversion target moduleOp = some m₀ ∧
          runPassPipeline runPass optimizationPasses m₀ = some m₁ ∧
          runPass Pass.ordinalAllocation m₁ = some m' ∧
          runPassPipeline runPass optimizationPasses m₁ = some m₁ := by
  intro hall
  obtain ⟨target, m₀, m₁, h₀, h₁, -, hfix⟩ :=
    hall pipelineEnv samplePass optimizeOptions foldableModule _ rfl rfl rfl
  have e₀ : m₀ = foldableModule := (Option.some.inj h₀).symm
  subst e₀
  have e₁ : m₁ = foldableModule.mapBodies
      (fun _ => [{ name := "vm.move" }, { name := "vm.move" }, { name := "vm.return" }]) :=
    (Option.some.inj h₁).symm
  subst e₁
  exact absurd hfix (by decide)

/-- C12, amended. With the pass manager running its passes in order, when
`optimize` is set and `canonicalizeModule` succeeds, the converted module went
through the inliner, common-subexpression elimination and the canonicalizer
once each, in that order, and then through ordinal allocation, which is the
last transformation and yields the module `canonicalizeModule` leaves. -/
theorem canonicalizeModule_optimize_once (env : Env)
    (runPass : Pass → ModuleOp → Option ModuleOp) (targetOptions : BytecodeTargetOptions)
    (moduleOp m' : ModuleOp) (hrun : env.runPasses = runPassPipeline runPass)
    (hopt : targetOptions.optimize = true)
    (h : canonicalizeModule env targetOptions moduleOp = some m') :
    ∃ target m₀ m₁ m₂ m₃, env.applyFullConversion target moduleOp = some m₀ ∧
      runPass Pass.inliner m₀ = some m₁ ∧ runPass Pass.cse m₁ = some m₂ ∧
      runPass Pass.canonicalizer m₂ = some m₃ ∧
      runPassPipeline runPass optimizationPasses m₀ = some m₃ ∧
      runPass Pass.ordinalAllocation m₃ = some m' := by
  obtain ⟨target, m₀, hconv, hpasses⟩ :=
    canonicalizeModule_optimize_eq env targetOptions moduleOp m' hopt h
  rw [hrun] at hpasses
  obtain ⟨m₁, m₂, m₃, h₁, h₂, h₃, h₄⟩ := (runPassPipeline_optimize runPass m₀ m').1 hpasses
  refine ⟨target, m₀, m₁, m₂, m₃, hconv, h₁, h₂, h₃, ?_, h₄⟩
  unfold runPassPipeline optimizationPasses
  simp only [List.foldlM_cons, List.foldlM_nil, h₁, h₂, h₃, Option.some_bind, Option.bind_eq_bind]
  rfl

/-- Witness for amended C12, on `foldableModule` with the passes of `samplePass`. -/
theorem canonicalizeModule_optimize_once_witness :
    ∃ m', canonicalizeModule pipelineEnv optimizeOptions foldableModule = some m' ∧
    ∃ target m₀ m₁ m₂ m₃, pipelineEnv.applyFullConversion target foldableModule = some m₀ ∧
      samplePass Pass.inliner m₀ = some m₁ ∧ samplePass Pass.cse m₁ = some m₂ ∧
      samplePass Pass.canonicalizer m₂ = some m₃ ∧
      runPassPipeline samplePass optimizationPasses m₀ = some m₃ ∧
      samplePass Pass.ordinalAllocation m₃ = some m' :=
  ⟨_, rfl, canonicalizeModule_optimize_once pipelineEnv samplePass optimizeOptions
    foldableModule _ rfl rfl rfl⟩

end iree_compiler
